import Mathlib

/-!
The check-orchestration core of csaf_checker.

A shallow embedding of `cmd/csaf_checker/checks.go`: the processor, its redirect
map, the `check` interface, the thirteen concrete checks and the per-domain
run / report / clean loop, followed by theorems about them.

Conventions of the embedding

* A Go pointer argument becomes a value passed in and handed back, so that what a
  method may change is visible in its result type.
* A Go `error` is an `Option String` (`none` is `nil`).
* `map[string]string` is a list of entries with pairwise distinct keys; the order
  of the list plays the part of Go's unspecified iteration order.
* Go compares strings byte by byte; for UTF-8 text this is the order of the
  code points, which is the order `strLe` below.
-/

namespace CsafChecker

/-! ## Strings and maps -/

/-- The order `sort.Strings` sorts by: lexicographic on the characters. -/
def strLe (a b : String) : Prop := a.toList ≤ b.toList

/-- The strict order belonging to `strLe`. -/
def strLt (a b : String) : Prop := a.toList < b.toList

instance strLe.decidable : DecidableRel strLe :=
  fun a b => inferInstanceAs (Decidable (a.toList ≤ b.toList))

instance strLt.decidable : DecidableRel strLt :=
  fun a b => inferInstanceAs (Decidable (a.toList < b.toList))

instance strLe.isTotal : IsTotal String strLe :=
  ⟨fun a b => le_total a.toList b.toList⟩

instance strLe.isTrans : IsTrans String strLe :=
  ⟨fun a b c => @le_trans _ _ a.toList b.toList c.toList⟩

instance strLe.isAntisymm : IsAntisymm String strLe :=
  ⟨fun _ _ h1 h2 => String.ext (le_antisymm h1 h2)⟩

/-- Go's `sort.Strings`: the ascending rearrangement of the slice. -/
def sortStrings (keys : List String) : List String :=
  List.insertionSort strLe keys

/-- Go's `fmt.Sprintf("Redirect %s: %s", k, v)`. -/
def sprintfRedirect (k v : String) : String :=
  "Redirect " ++ k ++ ": " ++ v

/-- A Go `map[string]string`: its entries, no key occurring twice. -/
structure GoMap where
  entries : List (String × String)
  nodup : (entries.map Prod.fst).Nodup

namespace GoMap

/-- The literal `map[string]string{}`. -/
def empty : GoMap := ⟨[], List.nodup_nil⟩

/-- The keys in iteration order (`for k := range m`). -/
def keys (m : GoMap) : List String := m.entries.map Prod.fst

/-- The built-in `len(m)`. -/
def len (m : GoMap) : Nat := m.entries.length

/-- The comma-ok lookup `v, ok := m[k]`. -/
def lookup (m : GoMap) (k : String) : Option String :=
  (m.entries.find? (fun e => e.1 = k)).map Prod.snd

/-- The plain index expression `m[k]`: the zero value when the key is absent. -/
def get (m : GoMap) (k : String) : String := (m.lookup k).getD ""

/-- The built-in `delete(m, k)`. -/
def delete (m : GoMap) (k : String) : GoMap :=
  ⟨m.entries.filter (fun e => e.1 ≠ k),
    m.nodup.sublist ((List.filter_sublist m.entries).map Prod.fst)⟩

/-- The assignment `m[k] = v`: any entry under `k` is replaced, a new key is added. -/
def set (m : GoMap) (k v : String) : GoMap :=
  ⟨m.entries.filter (fun e => e.1 ≠ k) ++ [(k, v)], by
    rw [List.map_append, List.nodup_append]
    refine ⟨m.nodup.sublist ((List.filter_sublist m.entries).map Prod.fst),
      List.nodup_singleton _, ?_⟩
    intro a ha hb
    simp only [List.map_cons, List.map_nil, List.mem_singleton] at hb
    subst hb
    obtain ⟨e, he, hek⟩ := List.mem_map.mp ha
    simpa [hek] using (List.mem_filter.mp he).2⟩

end GoMap

/-! ## Data model -/

/-- Modelled from the spec: the `options` record is declared outside checks.go;
the one field the processor reads is `Insecure`. -/
structure options where
  Insecure : Bool
  deriving DecidableEq, Repr

/-- Modelled from the spec: the `Requirement` record is declared outside
checks.go; it holds an identifying number, a description and an ordered list of
messages, the three fields `baseCheck.report` fills in. -/
structure Requirement where
  Num : Int
  Description : String
  Messages : List String
  deriving DecidableEq, Repr

/-- Modelled from the spec: the `Domain` record is declared outside checks.go; it
holds the name of the domain and the ordered Requirement results. -/
structure Domain where
  Name : String
  Requirements : List Requirement
  deriving DecidableEq, Repr

/-- Modelled from the spec: the `Report` record is declared outside checks.go; it
holds the ordered Domain results. -/
structure Report where
  Domains : List Domain
  deriving DecidableEq, Repr

/-- The part of an `http.Request` that `checkRedirect` reads: `URL.String()`. -/
structure Request where
  URL : String
  deriving DecidableEq, Repr

/-- `type processor struct { opts *options; redirects map[string]string }`. -/
structure processor where
  opts : options
  redirects : GoMap

/-- Everything a check may touch: the processor and the memory `heap` holding the
check objects themselves. -/
structure World (σ : Type) where
  heap : σ
  p : processor

/-- `type check interface { run(*processor, string) error; report(*processor, *Domain) }`. -/
structure check (σ : Type) where
  run : World σ → String → World σ × Option String
  report : World σ → Domain → World σ × Domain

/-! ## The processor -/

/-- `func newProcessor(opts *options) *processor`. -/
def newProcessor (opts : options) : processor :=
  { opts := opts, redirects := GoMap.empty }

/-- `func (p *processor) clean()`: delete every key met while ranging over the map. -/
def processor.clean (p : processor) : processor :=
  { p with redirects := p.redirects.keys.foldl (fun m k => m.delete k) p.redirects }

/-- First inner loop of `processor.run`: `ch.run(p, d)` for each check, returning
at the first error. -/
def processor.runChecks {σ : Type} :
    List (check σ) → String → World σ → World σ × Option String
  | [], _, w => (w, none)
  | ch :: rest, d, w =>
    match ch.run w d with
    | (w1, some err) => (w1, some err)
    | (w1, none) => processor.runChecks rest d w1

/-- Second inner loop of `processor.run`: `ch.report(p, domain)` for each check. -/
def processor.reportChecks {σ : Type} :
    List (check σ) → World σ → Domain → World σ × Domain
  | [], w, domain => (w, domain)
  | ch :: rest, w, domain =>
    match ch.report w domain with
    | (w1, domain1) => processor.reportChecks rest w1 domain1

/-- Outer loop of `processor.run` over the domains; `report` is the local
variable `report` of the source. -/
def processor.runDomains {σ : Type} (checks : List (check σ)) :
    List String → World σ → Report → World σ × Option Report × Option String
  | [], w, report => (w, some report, none)
  | d :: ds, w, report =>
    match processor.runChecks checks d w with
    | (w1, some err) => (w1, none, some err)
    | (w1, none) =>
      match processor.reportChecks checks w1 { Name := d, Requirements := [] } with
      | (w2, domain) =>
        processor.runDomains checks ds
          { heap := w2.heap, p := w2.p.clean }
          { Domains := report.Domains ++ [domain] }

/-- `func (p *processor) run(checks []check, domains []string) (*Report, error)`. -/
def processor.run {σ : Type} (checks : List (check σ)) (domains : List String)
    (w : World σ) : World σ × Option Report × Option String :=
  processor.runDomains checks domains w { Domains := [] }

/-- `func (p *processor) checkRedirect(r *http.Request, via []*http.Request) error`. -/
def processor.checkRedirect (p : processor) (r : Request) (via : List Request) :
    processor × Option String :=
  let path := via.enum.foldl
    (fun (path : String) (iv : Nat × Request) =>
      (if iv.1 > 0 then path ++ ", " else path) ++ iv.2.URL) ""
  let p1 : processor := { p with redirects := p.redirects.set r.URL path }
  if via.length > 10 then (p1, some "Too many redirections") else (p1, none)

/-! ## The concrete checks -/

/-- `type baseCheck struct { num int; description string; messages []string }`. -/
structure baseCheck where
  num : Int
  description : String
  messages : List String
  deriving DecidableEq, Repr

/-- `type tlsCheck struct { baseCheck }`. -/
structure tlsCheck where
  baseCheck : CsafChecker.baseCheck
  deriving DecidableEq, Repr

/-- `type redirectsCheck struct { baseCheck }`. -/
structure redirectsCheck where
  baseCheck : CsafChecker.baseCheck
  deriving DecidableEq, Repr

/-- `type providerMetadataCheck struct { baseCheck }`. -/
structure providerMetadataCheck where
  baseCheck : CsafChecker.baseCheck
  deriving DecidableEq, Repr

/-- `type securityCheck struct { baseCheck }`. -/
structure securityCheck where
  baseCheck : CsafChecker.baseCheck
  deriving DecidableEq, Repr

/-- `type wellknownMetadataCheck struct { baseCheck }`. -/
structure wellknownMetadataCheck where
  baseCheck : CsafChecker.baseCheck
  deriving DecidableEq, Repr

/-- `type dnsPathCheck struct { baseCheck }`. -/
structure dnsPathCheck where
  baseCheck : CsafChecker.baseCheck
  deriving DecidableEq, Repr

/-- `type oneFolderPerYearCheck struct { baseCheck }`. -/
structure oneFolderPerYearCheck where
  baseCheck : CsafChecker.baseCheck
  deriving DecidableEq, Repr

/-- `type indexCheck struct { baseCheck }`. -/
structure indexCheck where
  baseCheck : CsafChecker.baseCheck
  deriving DecidableEq, Repr

/-- `type changesCheck struct { baseCheck }`. -/
structure changesCheck where
  baseCheck : CsafChecker.baseCheck
  deriving DecidableEq, Repr

/-- `type directoryListingsCheck struct { baseCheck }`. -/
structure directoryListingsCheck where
  baseCheck : CsafChecker.baseCheck
  deriving DecidableEq, Repr

/-- `type integrityCheck struct { baseCheck }`. -/
structure integrityCheck where
  baseCheck : CsafChecker.baseCheck
  deriving DecidableEq, Repr

/-- `type signaturesCheck struct { baseCheck }`. -/
structure signaturesCheck where
  baseCheck : CsafChecker.baseCheck
  deriving DecidableEq, Repr

/-- `type publicPGPKeyCheck struct { baseCheck }`. -/
structure publicPGPKeyCheck where
  baseCheck : CsafChecker.baseCheck
  deriving DecidableEq, Repr

/-- `func (bc *baseCheck) report(_ *processor, domain *Domain)`. -/
def baseCheck.report (bc : CsafChecker.baseCheck) (p : processor) (domain : Domain) :
    CsafChecker.baseCheck × processor × Domain :=
  let req : Requirement :=
    { Num := bc.num, Description := bc.description, Messages := bc.messages }
  (bc, p, { domain with Requirements := domain.Requirements ++ [req] })

/-- `func (c *tlsCheck) run(*processor, string) error`. -/
def tlsCheck.run (c : tlsCheck) (p : processor) (_d : String) :
    tlsCheck × processor × Option String :=
  (c, p, none)

/-- `func (c *tlsCheck) report(p *processor, domain *Domain)`. -/
def tlsCheck.report (c : tlsCheck) (p : processor) (domain : Domain) :
    tlsCheck × processor × Domain :=
  match c.baseCheck.report p domain with
  | (bc1, p1, domain1) => ({ baseCheck := bc1 }, p1, domain1)

/-- `func (rc *redirectsCheck) run(*processor, string) error`. -/
def redirectsCheck.run (rc : redirectsCheck) (p : processor) (_d : String) :
    redirectsCheck × processor × Option String :=
  (rc, p, none)

/-- `func (rc *redirectsCheck) report(p *processor, domain *Domain)`. -/
def redirectsCheck.report (rc : redirectsCheck) (p : processor) (domain : Domain) :
    redirectsCheck × processor × Domain :=
  let keys := p.redirects.keys
  let keys := sortStrings keys
  let keys := keys.map (fun k => sprintfRedirect k (p.redirects.get k))
  let bc : CsafChecker.baseCheck := { rc.baseCheck with messages := keys }
  match bc.report p domain with
  | (bc1, p1, domain1) => ({ baseCheck := bc1 }, p1, domain1)

/-- `func (c *providerMetadataCheck) run(*processor, string) error`. -/
def providerMetadataCheck.run (c : providerMetadataCheck) (p : processor) (_d : String) :
    providerMetadataCheck × processor × Option String :=
  (c, p, none)

/-- `func (c *providerMetadataCheck) report(p *processor, domain *Domain)`. -/
def providerMetadataCheck.report (c : providerMetadataCheck) (p : processor) (domain : Domain) :
    providerMetadataCheck × processor × Domain :=
  match c.baseCheck.report p domain with
  | (bc1, p1, domain1) => ({ baseCheck := bc1 }, p1, domain1)

/-- `func (c *securityCheck) run(*processor, string) error`. -/
def securityCheck.run (c : securityCheck) (p : processor) (_d : String) :
    securityCheck × processor × Option String :=
  (c, p, none)

/-- `func (c *securityCheck) report(p *processor, domain *Domain)`. -/
def securityCheck.report (c : securityCheck) (p : processor) (domain : Domain) :
    securityCheck × processor × Domain :=
  match c.baseCheck.report p domain with
  | (bc1, p1, domain1) => ({ baseCheck := bc1 }, p1, domain1)

/-- `func (c *wellknownMetadataCheck) run(*processor, string) error`. -/
def wellknownMetadataCheck.run (c : wellknownMetadataCheck) (p : processor) (_d : String) :
    wellknownMetadataCheck × processor × Option String :=
  (c, p, none)

/-- `func (c *wellknownMetadataCheck) report(p *processor, domain *Domain)`. -/
def wellknownMetadataCheck.report (c : wellknownMetadataCheck) (p : processor) (domain : Domain) :
    wellknownMetadataCheck × processor × Domain :=
  match c.baseCheck.report p domain with
  | (bc1, p1, domain1) => ({ baseCheck := bc1 }, p1, domain1)

/-- `func (c *dnsPathCheck) run(*processor, string) error`. -/
def dnsPathCheck.run (c : dnsPathCheck) (p : processor) (_d : String) :
    dnsPathCheck × processor × Option String :=
  (c, p, none)

/-- `func (c *dnsPathCheck) report(p *processor, domain *Domain)`. -/
def dnsPathCheck.report (c : dnsPathCheck) (p : processor) (domain : Domain) :
    dnsPathCheck × processor × Domain :=
  match c.baseCheck.report p domain with
  | (bc1, p1, domain1) => ({ baseCheck := bc1 }, p1, domain1)

/-- `func (c *oneFolderPerYearCheck) run(*processor, string) error`. -/
def oneFolderPerYearCheck.run (c : oneFolderPerYearCheck) (p : processor) (_d : String) :
    oneFolderPerYearCheck × processor × Option String :=
  (c, p, none)

/-- `func (c *oneFolderPerYearCheck) report(p *processor, domain *Domain)`. -/
def oneFolderPerYearCheck.report (c : oneFolderPerYearCheck) (p : processor) (domain : Domain) :
    oneFolderPerYearCheck × processor × Domain :=
  match c.baseCheck.report p domain with
  | (bc1, p1, domain1) => ({ baseCheck := bc1 }, p1, domain1)

/-- `func (c *indexCheck) run(*processor, string) error`. -/
def indexCheck.run (c : indexCheck) (p : processor) (_d : String) :
    indexCheck × processor × Option String :=
  (c, p, none)

/-- `func (c *indexCheck) report(p *processor, domain *Domain)`. -/
def indexCheck.report (c : indexCheck) (p : processor) (domain : Domain) :
    indexCheck × processor × Domain :=
  match c.baseCheck.report p domain with
  | (bc1, p1, domain1) => ({ baseCheck := bc1 }, p1, domain1)

/-- `func (c *changesCheck) run(*processor, string) error`. -/
def changesCheck.run (c : changesCheck) (p : processor) (_d : String) :
    changesCheck × processor × Option String :=
  (c, p, none)

/-- `func (c *changesCheck) report(p *processor, domain *Domain)`. -/
def changesCheck.report (c : changesCheck) (p : processor) (domain : Domain) :
    changesCheck × processor × Domain :=
  match c.baseCheck.report p domain with
  | (bc1, p1, domain1) => ({ baseCheck := bc1 }, p1, domain1)

/-- `func (c *directoryListingsCheck) run(*processor, string) error`. -/
def directoryListingsCheck.run (c : directoryListingsCheck) (p : processor) (_d : String) :
    directoryListingsCheck × processor × Option String :=
  (c, p, none)

/-- `func (c *directoryListingsCheck) report(p *processor, domain *Domain)`. -/
def directoryListingsCheck.report (c : directoryListingsCheck) (p : processor) (domain : Domain) :
    directoryListingsCheck × processor × Domain :=
  match c.baseCheck.report p domain with
  | (bc1, p1, domain1) => ({ baseCheck := bc1 }, p1, domain1)

/-- `func (c *integrityCheck) run(*processor, string) error`. -/
def integrityCheck.run (c : integrityCheck) (p : processor) (_d : String) :
    integrityCheck × processor × Option String :=
  (c, p, none)

/-- `func (c *integrityCheck) report(p *processor, domain *Domain)`. -/
def integrityCheck.report (c : integrityCheck) (p : processor) (domain : Domain) :
    integrityCheck × processor × Domain :=
  match c.baseCheck.report p domain with
  | (bc1, p1, domain1) => ({ baseCheck := bc1 }, p1, domain1)

/-- `func (c *signaturesCheck) run(*processor, string) error`. -/
def signaturesCheck.run (c : signaturesCheck) (p : processor) (_d : String) :
    signaturesCheck × processor × Option String :=
  (c, p, none)

/-- `func (c *signaturesCheck) report(p *processor, domain *Domain)`. -/
def signaturesCheck.report (c : signaturesCheck) (p : processor) (domain : Domain) :
    signaturesCheck × processor × Domain :=
  match c.baseCheck.report p domain with
  | (bc1, p1, domain1) => ({ baseCheck := bc1 }, p1, domain1)

/-- `func (c *publicPGPKeyCheck) run(*processor, string) error`. -/
def publicPGPKeyCheck.run (c : publicPGPKeyCheck) (p : processor) (_d : String) :
    publicPGPKeyCheck × processor × Option String :=
  (c, p, none)

/-- `func (c *publicPGPKeyCheck) report(p *processor, domain *Domain)`. -/
def publicPGPKeyCheck.report (c : publicPGPKeyCheck) (p : processor) (domain : Domain) :
    publicPGPKeyCheck × processor × Domain :=
  match c.baseCheck.report p domain with
  | (bc1, p1, domain1) => ({ baseCheck := bc1 }, p1, domain1)

/-- A value of the interface `check` whose dynamic type is one of the thirteen
concrete check types of checks.go. -/
inductive concreteCheck where
  | tls (c : tlsCheck)
  | redirects (c : redirectsCheck)
  | providerMetadata (c : providerMetadataCheck)
  | security (c : securityCheck)
  | wellknownMetadata (c : wellknownMetadataCheck)
  | dnsPath (c : dnsPathCheck)
  | oneFolderPerYear (c : oneFolderPerYearCheck)
  | index (c : indexCheck)
  | changes (c : changesCheck)
  | directoryListings (c : directoryListingsCheck)
  | integrity (c : integrityCheck)
  | signatures (c : signaturesCheck)
  | publicPGPKey (c : publicPGPKeyCheck)
  deriving DecidableEq, Repr

/-- The embedded `baseCheck` of a concrete check. -/
def concreteCheck.base : concreteCheck → CsafChecker.baseCheck
  | .tls c => c.baseCheck
  | .redirects c => c.baseCheck
  | .providerMetadata c => c.baseCheck
  | .security c => c.baseCheck
  | .wellknownMetadata c => c.baseCheck
  | .dnsPath c => c.baseCheck
  | .oneFolderPerYear c => c.baseCheck
  | .index c => c.baseCheck
  | .changes c => c.baseCheck
  | .directoryListings c => c.baseCheck
  | .integrity c => c.baseCheck
  | .signatures c => c.baseCheck
  | .publicPGPKey c => c.baseCheck

/-- Dynamic dispatch of `ch.run(p, d)` on a concrete check. -/
def concreteCheck.run (ch : concreteCheck) (p : processor) (d : String) :
    concreteCheck × processor × Option String :=
  match ch with
  | .tls c => match c.run p d with
    | (c1, p1, err) => (.tls c1, p1, err)
  | .redirects c => match c.run p d with
    | (c1, p1, err) => (.redirects c1, p1, err)
  | .providerMetadata c => match c.run p d with
    | (c1, p1, err) => (.providerMetadata c1, p1, err)
  | .security c => match c.run p d with
    | (c1, p1, err) => (.security c1, p1, err)
  | .wellknownMetadata c => match c.run p d with
    | (c1, p1, err) => (.wellknownMetadata c1, p1, err)
  | .dnsPath c => match c.run p d with
    | (c1, p1, err) => (.dnsPath c1, p1, err)
  | .oneFolderPerYear c => match c.run p d with
    | (c1, p1, err) => (.oneFolderPerYear c1, p1, err)
  | .index c => match c.run p d with
    | (c1, p1, err) => (.index c1, p1, err)
  | .changes c => match c.run p d with
    | (c1, p1, err) => (.changes c1, p1, err)
  | .directoryListings c => match c.run p d with
    | (c1, p1, err) => (.directoryListings c1, p1, err)
  | .integrity c => match c.run p d with
    | (c1, p1, err) => (.integrity c1, p1, err)
  | .signatures c => match c.run p d with
    | (c1, p1, err) => (.signatures c1, p1, err)
  | .publicPGPKey c => match c.run p d with
    | (c1, p1, err) => (.publicPGPKey c1, p1, err)

/-- Dynamic dispatch of `ch.report(p, domain)` on a concrete check. -/
def concreteCheck.report (ch : concreteCheck) (p : processor) (domain : Domain) :
    concreteCheck × processor × Domain :=
  match ch with
  | .tls c => match c.report p domain with
    | (c1, p1, domain1) => (.tls c1, p1, domain1)
  | .redirects c => match c.report p domain with
    | (c1, p1, domain1) => (.redirects c1, p1, domain1)
  | .providerMetadata c => match c.report p domain with
    | (c1, p1, domain1) => (.providerMetadata c1, p1, domain1)
  | .security c => match c.report p domain with
    | (c1, p1, domain1) => (.security c1, p1, domain1)
  | .wellknownMetadata c => match c.report p domain with
    | (c1, p1, domain1) => (.wellknownMetadata c1, p1, domain1)
  | .dnsPath c => match c.report p domain with
    | (c1, p1, domain1) => (.dnsPath c1, p1, domain1)
  | .oneFolderPerYear c => match c.report p domain with
    | (c1, p1, domain1) => (.oneFolderPerYear c1, p1, domain1)
  | .index c => match c.report p domain with
    | (c1, p1, domain1) => (.index c1, p1, domain1)
  | .changes c => match c.report p domain with
    | (c1, p1, domain1) => (.changes c1, p1, domain1)
  | .directoryListings c => match c.report p domain with
    | (c1, p1, domain1) => (.directoryListings c1, p1, domain1)
  | .integrity c => match c.report p domain with
    | (c1, p1, domain1) => (.integrity c1, p1, domain1)
  | .signatures c => match c.report p domain with
    | (c1, p1, domain1) => (.signatures c1, p1, domain1)
  | .publicPGPKey c => match c.report p domain with
    | (c1, p1, domain1) => (.publicPGPKey c1, p1, domain1)

/-- The memory holding the concrete check objects, by address. -/
abbrev Heap := Nat → concreteCheck

/-- The interface value pointing at the concrete check object at address `a`. -/
def checkAt (a : Nat) : check Heap where
  run w d :=
    match (w.heap a).run w.p d with
    | (c1, p1, err) => ({ heap := Function.update w.heap a c1, p := p1 }, err)
  report w domain :=
    match (w.heap a).report w.p domain with
    | (c1, p1, domain1) => ({ heap := Function.update w.heap a c1, p := p1 }, domain1)

/-! ## Call traces -/

/-- One call of a check method made by `processor.run`, as seen from inside the
check: which check (its position in the check list), the arguments, the redirect
map found on entry and what the call returned. -/
inductive Call where
  | run (idx : Nat) (d : String) (seen : GoMap) (err : Option String)
  | report (idx : Nat) (before after : Domain) (seen : GoMap)

/-- Which method was called and on which check; for `run`, also the domain name
it was handed. -/
inductive CallSig where
  | run (idx : Nat) (d : String)
  | report (idx : Nat)
  deriving DecidableEq, Repr

/-- The method and check of a call. -/
def Call.sig : Call → CallSig
  | .run i d _ _ => .run i d
  | .report i _ _ _ => .report i

/-- The `report` calls among the calls: the check, and the Domain record before
and after the call. -/
def Call.reported : Call → Option (Nat × Domain × Domain)
  | .run _ _ _ _ => none
  | .report i before after _ => some (i, before, after)

/-- The error a call returned (`report` returns nothing). -/
def Call.err : Call → Option String
  | .run _ _ _ err => err
  | .report _ _ _ _ => none

/-- The redirect map the call found on entry. -/
def Call.seen : Call → GoMap
  | .run _ _ seen _ => seen
  | .report _ _ _ seen => seen

/-- The same check, writing every call it receives to a log kept next to the heap. -/
def traced {σ : Type} (i : Nat) (ch : check σ) : check (σ × List Call) where
  run w d :=
    match ch.run { heap := w.heap.1, p := w.p } d with
    | (w1, err) =>
      ({ heap := (w1.heap, w.heap.2 ++ [Call.run i d w.p.redirects err]), p := w1.p }, err)
  report w domain :=
    match ch.report { heap := w.heap.1, p := w.p } domain with
    | (w1, domain1) =>
      ({ heap := (w1.heap, w.heap.2 ++ [Call.report i domain domain1 w.p.redirects]),
         p := w1.p }, domain1)

/-- The check list with every check traced under its position, counted from `k`. -/
def tracedFrom {σ : Type} (k : Nat) (checks : List (check σ)) :
    List (check (σ × List Call)) :=
  (checks.enumFrom k).map (fun ic => traced ic.1 ic.2)

/-- The calls `processor.run` makes, in the order it makes them. -/
def callTrace {σ : Type} (checks : List (check σ)) (domains : List String)
    (w : World σ) : List Call :=
  (processor.run (tracedFrom 0 checks) domains { heap := (w.heap, []), p := w.p }).1.heap.2

/-- The run calls for domain `d` of the checks at positions `0 .. n-1`. -/
def runCalls (n : Nat) (d : String) : List CallSig :=
  (List.range n).map (fun j => CallSig.run j d)

/-- The report calls of the checks at positions `0 .. n-1`. -/
def reportCalls (n : Nat) : List CallSig :=
  (List.range n).map (fun j => CallSig.report j)

/-- The calls of one completed domain: every run, then every report. -/
def domainCalls (n : Nat) (d : String) : List CallSig :=
  runCalls n d ++ reportCalls n

/-- A check standing for any probing code: for domain `d` it makes the requests
whose redirects call `checkRedirect` with the arguments listed in `hops d`, never
fails itself, and reports the fixed Requirement `req`. -/
def probeCheck {σ : Type} (hops : String → List (Request × List Request))
    (req : Requirement) : check σ where
  run w d :=
    ({ w with p := (hops d).foldl (fun p h => (p.checkRedirect h.1 h.2).1) w.p }, none)
  report w domain := (w, { domain with Requirements := domain.Requirements ++ [req] })

/-- The URLs of `via` joined by a comma and a space, as the spec words it. -/
def joinURLs (via : List Request) : String :=
  ", ".intercalate (via.map Request.URL)

/-- The Requirement a report call has just appended to `domain`. -/
def lastRequirement (domain : Domain) : Option Requirement :=
  domain.Requirements.getLast?

/-- The calls the first inner loop of `processor.run` makes for domain `d`, the
checks numbered from `k`: the loop stops after the first call that fails. -/
def runLog {σ : Type} : Nat → List (check σ) → String → World σ → List Call
  | _, [], _, _ => []
  | k, ch :: rest, d, w =>
    match ch.run w d with
    | (_, some err) => [Call.run k d w.p.redirects (some err)]
    | (w1, none) => Call.run k d w.p.redirects none :: runLog (k + 1) rest d w1

/-- The calls the second inner loop of `processor.run` makes, the checks numbered
from `k`. -/
def reportLog {σ : Type} : Nat → List (check σ) → World σ → Domain → List Call
  | _, [], _, _ => []
  | k, ch :: rest, w, domain =>
    match ch.report w domain with
    | (w1, domain1) =>
      Call.report k domain domain1 w.p.redirects :: reportLog (k + 1) rest w1 domain1

/-- The calls the outer loop of `processor.run` makes. -/
def domainsLog {σ : Type} (checks : List (check σ)) : List String → World σ → List Call
  | [], _ => []
  | d :: ds, w =>
    match processor.runChecks checks d w with
    | (_, some _) => runLog 0 checks d w
    | (w1, none) =>
      match processor.reportChecks checks w1 { Name := d, Requirements := [] } with
      | (w2, _) =>
        runLog 0 checks d w ++ reportLog 0 checks w1 { Name := d, Requirements := [] }
          ++ domainsLog checks ds { heap := w2.heap, p := w2.p.clean }

/-- The report calls that build the Domain record `D` out of `n` checks: the
check at position `j` is handed `D` holding its first `j` Requirements and hands
it back holding its first `j + 1`. -/
def buildCalls (n : Nat) (D : Domain) : List (Nat × Domain × Domain) :=
  (List.range n).map (fun j =>
    (j, { Name := D.Name, Requirements := D.Requirements.take j },
        { Name := D.Name, Requirements := D.Requirements.take (j + 1) }))

/-- A check whose `report` does nothing to the Domain record but append one
Requirement to its list. -/
def check.appendsOne {σ : Type} (ch : check σ) : Prop :=
  ∀ (w : World σ) (domain : Domain), ∃ req : Requirement,
    (ch.report w domain).2 =
      { Name := domain.Name, Requirements := domain.Requirements ++ [req] }

/-- A check standing for any check that can fail: its `run` returns `fails d` for
domain `d` and touches nothing, its `report` appends the fixed Requirement `req`. -/
def stubCheck {σ : Type} (fails : String → Option String) (req : Requirement) : check σ where
  run w d := (w, fails d)
  report w domain := (w, { domain with Requirements := domain.Requirements ++ [req] })

/-- Two check objects in memory: a `tlsCheck` at address 0 and a `redirectsCheck`
at every other address. -/
def sampleHeap : Heap := fun a =>
  if a = 0 then
    .tls { baseCheck := { num := 1, description := "TLS", messages := [] } }
  else
    .redirects { baseCheck := { num := 2, description := "Redirects", messages := [] } }

/-- Five checks of which the third fails for the domain "b.example". -/
def sampleFailingChecks : List (check Unit) :=
  [ stubCheck (fun _ => none) { Num := 1, Description := "one", Messages := [] },
    stubCheck (fun _ => none) { Num := 2, Description := "two", Messages := [] },
    stubCheck (fun d => if d = "b.example" then some "fatal" else none)
      { Num := 3, Description := "three", Messages := [] },
    stubCheck (fun _ => none) { Num := 4, Description := "four", Messages := [] },
    stubCheck (fun _ => none) { Num := 5, Description := "five", Messages := [] } ]

/-- Probing "a.example" follows one redirect, from http to https; probing any
other domain follows none. -/
def sampleHops (d : String) : List (Request × List Request) :=
  if d = "a.example" then
    [({ URL := "https://a.example/csaf" }, [{ URL := "http://a.example/csaf" }])]
  else []

/-! ## The HTTP client -/

/-- The field of `tls.Config` that `httpClient` sets. -/
structure tlsConfig where
  InsecureSkipVerify : Bool
  deriving DecidableEq, Repr

/-- The field of `http.Transport` that `httpClient` sets; `none` is a nil pointer. -/
structure Transport where
  TLSClientConfig : Option tlsConfig
  deriving DecidableEq, Repr

/-- The fields of `http.Client` that `httpClient` sets. `CheckRedirect` is the hook
called before a redirect is followed; a method value bound to the processor is a
function of the processor's current state. `Transport` is `none` for nil, in which
case `net/http` uses its default transport. -/
structure Client where
  CheckRedirect : Option (processor → Request → List Request → processor × Option String)
  Transport : Option Transport

/-- `func (p *processor) httpClient() *http.Client`. -/
def processor.httpClient (p : processor) : Client :=
  let client : Client :=
    { CheckRedirect := some processor.checkRedirect, Transport := none }
  if p.opts.Insecure then
    { client with
      Transport := some { TLSClientConfig := some { InsecureSkipVerify := true } } }
  else client

/-- Whether a client skips TLS certificate validation: its transport is set and
carries a TLS configuration with `InsecureSkipVerify`. With no transport set the
default transport is used, which validates certificates. -/
def Client.skipsVerify (c : Client) : Bool :=
  match c.Transport with
  | none => false
  | some t =>
    match t.TLSClientConfig with
    | none => false
    | some cfg => cfg.InsecureSkipVerify

/-- The calls `net/http` makes to the hook while following redirects: before it
follows the redirect to `u`, it calls the hook with the request for `u` and the
requests `made` so far, oldest first; an error from the hook ends the chain. -/
def followFrom : processor → List Request → List String → processor × Option String
  | p, _, [] => (p, none)
  | p, made, u :: rest =>
    match p.checkRedirect { URL := u } made with
    | (p1, some err) => (p1, some err)
    | (p1, none) => followFrom p1 (made ++ [{ URL := u }]) rest

/-- One request for the first URL of `chain` that is redirected along the rest of
`chain`, made with the client of `processor.httpClient`. -/
def followChain (p : processor) : List String → processor × Option String
  | [] => (p, none)
  | u :: rest => followFrom p [{ URL := u }] rest

/-- The redirect of the end-to-end scenario: probing "example.org" is redirected
once, from http to https; probing any other domain is not redirected. -/
def exampleOrgHops (d : String) : List (Request × List Request) :=
  if d = "example.org" then
    [({ URL := "https://example.org/.well-known/csaf" },
      [{ URL := "http://example.org/.well-known/csaf" }])]
  else []

/-- A probing check that records one redirect for "a.example", followed by a check
that fails for "a.example". -/
def sampleDirtyChecks : List (check Unit) :=
  [ probeCheck sampleHops { Num := 1, Description := "probe", Messages := [] },
    stubCheck (fun d => if d = "a.example" then some "fatal" else none)
      { Num := 2, Description := "fails", Messages := [] } ]

/-! ## Lemmas on maps and strings -/

theorem GoMap.ext_entries {m1 m2 : GoMap} (h : m1.entries = m2.entries) : m1 = m2 := by
  cases m1; cases m2; cases h; rfl

theorem GoMap.lookup_of_mem (m : GoMap) {k v : String} (h : (k, v) ∈ m.entries) :
    m.lookup k = some v := by
  obtain ⟨entries, nodup⟩ := m
  simp only [GoMap.lookup] at *
  induction entries with
  | nil => simp at h
  | cons e rest ih =>
    simp only [List.map_cons, List.nodup_cons] at nodup
    rcases List.mem_cons.mp h with h1 | h1
    · subst h1; simp
    · have hne : e.1 ≠ k := by
        intro heq
        exact nodup.1 (heq ▸ List.mem_map_of_mem Prod.fst h1)
      simp [List.find?_cons, hne, ih nodup.2 h1]

theorem GoMap.get_of_mem (m : GoMap) {k v : String} (h : (k, v) ∈ m.entries) :
    m.get k = v := by
  simp [GoMap.get, m.lookup_of_mem h]

theorem GoMap.lookup_set_self (m : GoMap) (k v : String) :
    (m.set k v).lookup k = some v :=
  GoMap.lookup_of_mem _ (by simp [GoMap.set])

theorem GoMap.foldl_delete_entries (l : List String) :
    ∀ m : GoMap, (∀ k ∈ m.keys, k ∈ l) → (l.foldl (fun m k => m.delete k) m).entries = [] := by
  induction l with
  | nil =>
    intro m h
    cases hm : m.entries with
    | nil => simpa using hm
    | cons e rest =>
      have := h e.1 (by simp [GoMap.keys, hm])
      simp at this
  | cons a l ih =>
    intro m h
    simp only [List.foldl_cons]
    apply ih
    intro k hk
    simp only [GoMap.keys, GoMap.delete, List.mem_map, List.mem_filter] at hk
    obtain ⟨e, ⟨he, hne⟩, rfl⟩ := hk
    have := h e.1 (List.mem_map_of_mem Prod.fst he)
    rcases List.mem_cons.mp this with h1 | h1
    · simp [h1] at hne
    · exact h1

theorem processor.clean_redirects (p : processor) : p.clean.redirects = GoMap.empty :=
  GoMap.ext_entries (GoMap.foldl_delete_entries _ _ (fun _ h => h))

theorem foldl_path_go (vs : List Request) :
    ∀ (n : Nat) (acc : String), 0 < n →
      (vs.enumFrom n).foldl
        (fun (path : String) (iv : Nat × Request) =>
          (if iv.1 > 0 then path ++ ", " else path) ++ iv.2.URL) acc
      = String.intercalate.go acc ", " (vs.map Request.URL) := by
  induction vs with
  | nil => intro n acc _; rfl
  | cons v vs ih =>
    intro n acc hn
    simp only [List.enumFrom_cons, List.foldl_cons, List.map_cons, String.intercalate.go]
    rw [ih (n + 1) _ (Nat.succ_pos n)]
    simp [hn]

theorem foldl_path_eq_joinURLs (via : List Request) :
    via.enum.foldl
        (fun (path : String) (iv : Nat × Request) =>
          (if iv.1 > 0 then path ++ ", " else path) ++ iv.2.URL) ""
      = joinURLs via := by
  cases via with
  | nil => rfl
  | cons v vs =>
    simp only [List.enum, List.enumFrom_cons, List.foldl_cons, joinURLs, List.map_cons,
      String.intercalate]
    rw [foldl_path_go vs 1 _ Nat.one_pos]
    simp

theorem checkRedirect_redirects (p : processor) (r : Request) (via : List Request) :
    (p.checkRedirect r via).1.redirects = p.redirects.set r.URL (joinURLs via) := by
  unfold processor.checkRedirect
  simp only [foldl_path_eq_joinURLs]
  split <;> rfl

theorem strLt_of_strLe_of_ne {a b : String} (h : strLe a b) (hne : a ≠ b) : strLt a b := by
  unfold strLe at h
  unfold strLt
  exact lt_of_le_of_ne h (fun heq => hne (String.ext heq))

theorem sortStrings_perm (keys : List String) : (sortStrings keys).Perm keys :=
  List.perm_insertionSort strLe keys

theorem sortStrings_sorted (keys : List String) : (sortStrings keys).Sorted strLe :=
  List.sorted_insertionSort strLe keys

theorem sortStrings_strict (keys : List String) (h : keys.Nodup) :
    (sortStrings keys).Sorted strLt := by
  have hs := sortStrings_sorted keys
  have hn : (sortStrings keys).Nodup := (sortStrings_perm keys).nodup_iff.mpr h
  unfold List.Sorted at *
  unfold List.Nodup at hn
  exact (hs.and hn).imp (fun h => strLt_of_strLe_of_ne h.1 h.2)

theorem sortStrings_eq_of_perm {l1 l2 : List String} (h : l1.Perm l2) :
    sortStrings l1 = sortStrings l2 :=
  List.eq_of_perm_of_sorted
    (((sortStrings_perm l1).trans h).trans (sortStrings_perm l2).symm)
    (sortStrings_sorted l1) (sortStrings_sorted l2)

/-- The messages `redirectsCheck.report` renders from the redirect map. -/
theorem redirectsCheck.report_eq (rc : redirectsCheck) (p : processor) (domain : Domain) :
    rc.report p domain =
      ({ baseCheck := { rc.baseCheck with
            messages := (sortStrings p.redirects.keys).map
              (fun k => sprintfRedirect k (p.redirects.get k)) } },
        p,
        { domain with Requirements := domain.Requirements ++
            [{ Num := rc.baseCheck.num, Description := rc.baseCheck.description,
               Messages := (sortStrings p.redirects.keys).map
                 (fun k => sprintfRedirect k (p.redirects.get k)) }] }) := rfl

theorem GoMap.map_get_keys (m : GoMap) :
    m.keys.map (fun k => sprintfRedirect k (m.get k))
      = m.entries.map (fun e => sprintfRedirect e.1 e.2) := by
  unfold GoMap.keys
  rw [List.map_map]
  apply List.map_congr_left
  intro e he
  simp only [Function.comp]
  rw [@GoMap.get_of_mem m e.1 e.2 he]

theorem GoMap.get_eq_of_perm {m1 m2 : GoMap} (h : m1.entries.Perm m2.entries)
    {k : String} (hk : k ∈ m1.keys) : m1.get k = m2.get k := by
  obtain ⟨e, he, rfl⟩ := List.mem_map.mp hk
  rw [@GoMap.get_of_mem m1 e.1 e.2 he, @GoMap.get_of_mem m2 e.1 e.2 (h.subset he)]

theorem intercalate_go_append (s : String) (l : List String) :
    ∀ (x acc : String),
      String.intercalate.go (x ++ acc) s l = x ++ String.intercalate.go acc s l := by
  induction l with
  | nil => intro x acc; rfl
  | cons a l ih =>
    intro x acc
    simp only [String.intercalate.go]
    rw [← ih x (acc ++ s ++ a)]
    simp [String.append_assoc]

theorem joinURLs_cons_cons (v w : Request) (rest : List Request) :
    joinURLs (v :: w :: rest) = v.URL ++ ", " ++ joinURLs (w :: rest) := by
  simp only [joinURLs, List.map_cons, String.intercalate, String.intercalate.go]
  rw [String.append_assoc, String.append_assoc, intercalate_go_append,
    intercalate_go_append]

theorem GoMap.mem_keys_set (m : GoMap) (k v : String) : k ∈ (m.set k v).keys := by
  simp [GoMap.keys, GoMap.set]

theorem GoMap.get_set_self (m : GoMap) (k v : String) : (m.set k v).get k = v := by
  simp [GoMap.get, GoMap.lookup_set_self]

theorem lastRequirement_append (name : String) (rs : List Requirement) (r : Requirement) :
    lastRequirement { Name := name, Requirements := rs ++ [r] } = some r := by
  simp [lastRequirement]

/-- C4: after `checkRedirect(r, via)` the redirect map holds under key `r.URL` the
URLs of `via` joined by ", " in order (the empty string for empty `via`, the bare
URL for a single one, no separator before the first or after the last); for the
chain a -> b -> c it holds "https://x/a, https://x/b" under "https://x/c", and
`redirectsCheck.report` renders that entry as
"Redirect https://x/c: https://x/a, https://x/b". -/
theorem checkRedirect_records_joined_chain :
    (∀ (p : processor) (r : Request) (via : List Request),
        (p.checkRedirect r via).1.redirects.lookup r.URL = some (joinURLs via)) ∧
    joinURLs [] = "" ∧
    (∀ v : Request, joinURLs [v] = v.URL) ∧
    (∀ (v w : Request) (rest : List Request),
        joinURLs (v :: w :: rest) = v.URL ++ ", " ++ joinURLs (w :: rest)) ∧
    (∀ p : processor,
        (p.checkRedirect ⟨"https://x/c"⟩ [⟨"https://x/a"⟩, ⟨"https://x/b"⟩]).1.redirects.lookup
          "https://x/c" = some "https://x/a, https://x/b") ∧
    (∀ (p : processor) (rc : redirectsCheck) (domain : Domain),
        ∃ req, lastRequirement
            (rc.report
              (p.checkRedirect ⟨"https://x/c"⟩ [⟨"https://x/a"⟩, ⟨"https://x/b"⟩]).1
              domain).2.2 = some req ∧
          "Redirect https://x/c: https://x/a, https://x/b" ∈ req.Messages) ∧
    (∀ (opts : options) (rc : redirectsCheck) (domain : Domain),
        lastRequirement
            (rc.report
              ((newProcessor opts).checkRedirect ⟨"https://x/c"⟩
                [⟨"https://x/a"⟩, ⟨"https://x/b"⟩]).1
              domain).2.2
          = some { Num := rc.baseCheck.num, Description := rc.baseCheck.description,
                   Messages := ["Redirect https://x/c: https://x/a, https://x/b"] }) := by
  have hgen : ∀ (p : processor) (r : Request) (via : List Request),
      (p.checkRedirect r via).1.redirects.lookup r.URL = some (joinURLs via) := by
    intro p r via
    rw [checkRedirect_redirects]
    exact GoMap.lookup_set_self _ _ _
  refine ⟨hgen, rfl, fun v => ?_, joinURLs_cons_cons, fun p => ?_, fun p rc domain => ?_,
    fun opts rc domain => ?_⟩
  · simp [joinURLs, String.intercalate, String.intercalate.go]
  · exact hgen p ⟨"https://x/c"⟩ [⟨"https://x/a"⟩, ⟨"https://x/b"⟩]
  · rw [redirectsCheck.report_eq]
    refine ⟨_, lastRequirement_append _ _ _, ?_⟩
    simp only [List.mem_map]
    refine ⟨"https://x/c", (sortStrings_perm _).mem_iff.mpr ?_, ?_⟩
    · rw [checkRedirect_redirects]
      exact GoMap.mem_keys_set _ _ _
    · rw [checkRedirect_redirects, GoMap.get_set_self]
      decide
  · rw [redirectsCheck.report_eq]
    rw [lastRequirement_append]
    rfl

/-- C5: `checkRedirect` fails, with the error "Too many redirections", exactly
when `via` has more than 10 entries and returns no error otherwise: 11 entries
fail, 10 entries succeed. -/
theorem checkRedirect_fails_iff_more_than_ten (p : processor) (r : Request)
    (via : List Request) :
    ((p.checkRedirect r via).2 = some "Too many redirections" ↔ 10 < via.length) ∧
    ((p.checkRedirect r via).2 = none ↔ via.length ≤ 10) ∧
    (∀ v : Request,
      (p.checkRedirect r (List.replicate 11 v)).2 = some "Too many redirections") ∧
    (∀ v : Request, (p.checkRedirect r (List.replicate 10 v)).2 = none) := by
  have key : ∀ l : List Request,
      (p.checkRedirect r l).2 = if 10 < l.length then some "Too many redirections" else none := by
    intro l
    unfold processor.checkRedirect
    simp only [gt_iff_lt]
    split <;> rfl
  refine ⟨?_, ?_, fun v => ?_, fun v => ?_⟩
  · rw [key]; split <;> simp_all
  · rw [key]; split <;> simp_all
  · rw [key]; simp
  · rw [key]; simp

/-- C6: whatever the redirect map holds, the messages of the Requirement that
`redirectsCheck.report` appends follow a strictly ascending list of the map's
keys, one message per key; two maps with the same entries recorded in a different
order give the same messages; with https://x/z and https://x/a recorded in either
order the message for .../a comes first. -/
theorem redirects_report_sorted_by_key :
    (∀ (rc : redirectsCheck) (p : processor) (domain : Domain),
      ∃ (ks : List String) (req : Requirement),
        ks.Sorted strLt ∧ ks.Perm p.redirects.keys ∧
        lastRequirement (rc.report p domain).2.2 = some req ∧
        req.Messages = ks.map (fun k => sprintfRedirect k (p.redirects.get k))) ∧
    (∀ (rc : redirectsCheck) (p q : processor) (domain : Domain),
      p.redirects.entries.Perm q.redirects.entries →
        (rc.report p domain).2.2 = (rc.report q domain).2.2) ∧
    (∀ (rc : redirectsCheck) (opts : options) (domain : Domain) (s t : String),
      lastRequirement (rc.report
          { opts := opts,
            redirects := (GoMap.empty.set "https://x/z" s).set "https://x/a" t } domain).2.2
        = some { Num := rc.baseCheck.num, Description := rc.baseCheck.description,
                 Messages := ["Redirect https://x/a: " ++ t, "Redirect https://x/z: " ++ s] } ∧
      lastRequirement (rc.report
          { opts := opts,
            redirects := (GoMap.empty.set "https://x/a" t).set "https://x/z" s } domain).2.2
        = some { Num := rc.baseCheck.num, Description := rc.baseCheck.description,
                 Messages := ["Redirect https://x/a: " ++ t, "Redirect https://x/z: " ++ s] }) := by
  refine ⟨fun rc p domain => ?_, fun rc p q domain h => ?_, fun rc opts domain s t => ?_⟩
  · refine ⟨sortStrings p.redirects.keys,
      { Num := rc.baseCheck.num, Description := rc.baseCheck.description,
        Messages := (sortStrings p.redirects.keys).map
          (fun k => sprintfRedirect k (p.redirects.get k)) },
      sortStrings_strict _ p.redirects.nodup, sortStrings_perm _, ?_, rfl⟩
    rw [redirectsCheck.report_eq]
    exact lastRequirement_append _ _ _
  · have hk : p.redirects.keys.Perm q.redirects.keys := h.map Prod.fst
    have hmsg : (sortStrings p.redirects.keys).map
          (fun k => sprintfRedirect k (p.redirects.get k))
        = (sortStrings q.redirects.keys).map
          (fun k => sprintfRedirect k (q.redirects.get k)) := by
      rw [sortStrings_eq_of_perm hk]
      apply List.map_congr_left
      intro k hkq
      have hkp : k ∈ p.redirects.keys :=
        hk.mem_iff.mpr ((sortStrings_perm _).mem_iff.mp hkq)
      rw [GoMap.get_eq_of_perm h hkp]
    rw [redirectsCheck.report_eq, redirectsCheck.report_eq, hmsg]
  · constructor
    · rw [redirectsCheck.report_eq, lastRequirement_append]
      rfl
    · rw [redirectsCheck.report_eq, lastRequirement_append]
      rfl

/-- C7: whatever the redirect map holds, the Requirement that
`redirectsCheck.report` appends has one message per map entry and no other: the
message list is a rearrangement of the entries, each entry (k, v) rendered as
"Redirect " ++ k ++ ": " ++ v, so its length is the number of entries; the
messages the check held before are replaced by this list. -/
theorem redirects_report_discloses_every_entry (rc : redirectsCheck) (p : processor)
    (domain : Domain) :
    ∃ msgs : List String,
      msgs.Perm (p.redirects.entries.map (fun e => "Redirect " ++ e.1 ++ ": " ++ e.2)) ∧
      msgs.length = p.redirects.len ∧
      (rc.report p domain).2.2 =
        { Name := domain.Name,
          Requirements := domain.Requirements ++
            [{ Num := rc.baseCheck.num, Description := rc.baseCheck.description,
               Messages := msgs }] } ∧
      (rc.report p domain).1.baseCheck.messages = msgs := by
  refine ⟨(sortStrings p.redirects.keys).map
    (fun k => sprintfRedirect k (p.redirects.get k)), ?_, ?_, rfl, rfl⟩
  · have h1 := (sortStrings_perm p.redirects.keys).map
      (fun k => sprintfRedirect k (p.redirects.get k))
    rw [GoMap.map_get_keys] at h1
    exact h1
  · rw [List.length_map, (sortStrings_perm p.redirects.keys).length_eq]
    simp [GoMap.keys, GoMap.len]

/-- C8: for each of the thirteen concrete checks, `report` appends exactly one
Requirement to the end of the Domain's list, carrying the check's num, its
description and its messages; the Domain's name and its earlier Requirements stay
in place, the processor (its redirect map included) is unchanged, the check's num
and description are unchanged, and every check but `redirectsCheck` is left
unchanged altogether. -/
theorem concrete_report_appends_one (ch : concreteCheck) (p : processor)
    (domain : Domain) :
    (ch.report p domain).2.2 =
      { Name := domain.Name,
        Requirements := domain.Requirements ++
          [{ Num := (ch.report p domain).1.base.num,
             Description := (ch.report p domain).1.base.description,
             Messages := (ch.report p domain).1.base.messages }] } ∧
    (ch.report p domain).2.1 = p ∧
    (ch.report p domain).1.base.num = ch.base.num ∧
    (ch.report p domain).1.base.description = ch.base.description ∧
    ((∀ rc : redirectsCheck, ch ≠ .redirects rc) → (ch.report p domain).1 = ch) := by
  cases ch <;>
    refine ⟨rfl, rfl, rfl, rfl, fun h => ?_⟩ <;>
    first
      | rfl
      | exact absurd rfl (h _)

/-- C10: for every concrete check, two `report` calls in a row, with nothing in
between, append two Requirements of identical content. -/
theorem concrete_report_twice_same (ch : concreteCheck) (p : processor)
    (domain : Domain) :
    ∃ req : Requirement,
      (ch.report p domain).2.2.Requirements = domain.Requirements ++ [req] ∧
      ((ch.report p domain).1.report (ch.report p domain).2.1
          (ch.report p domain).2.2).2.2.Requirements
        = domain.Requirements ++ [req, req] := by
  cases ch <;> exact ⟨_, rfl, by simp [concreteCheck.report, tlsCheck.report,
    redirectsCheck.report, providerMetadataCheck.report, securityCheck.report,
    wellknownMetadataCheck.report, dnsPathCheck.report, oneFolderPerYearCheck.report,
    indexCheck.report, changesCheck.report, directoryListingsCheck.report,
    integrityCheck.report, signaturesCheck.report, publicPGPKeyCheck.report,
    baseCheck.report]⟩

/-! ## The traced loops -/

theorem tracedFrom_cons {σ : Type} (k : Nat) (c : check σ) (cs : List (check σ)) :
    tracedFrom k (c :: cs) = traced k c :: tracedFrom (k + 1) cs := rfl

theorem runChecks_traced {σ : Type} (cs : List (check σ)) :
    ∀ (k : Nat) (d : String) (w : World σ) (log : List Call),
      processor.runChecks (tracedFrom k cs) d { heap := (w.heap, log), p := w.p }
        = ({ heap := ((processor.runChecks cs d w).1.heap, log ++ runLog k cs d w),
             p := (processor.runChecks cs d w).1.p },
           (processor.runChecks cs d w).2) := by
  induction cs with
  | nil => intro k d w log; simp [tracedFrom, processor.runChecks, runLog]
  | cons c cs ih =>
    intro k d w log
    rw [tracedFrom_cons]
    simp only [processor.runChecks, runLog, traced]
    rcases hc : c.run w d with ⟨w1, _ | err⟩
    · have hw : ({ heap := w.heap, p := w.p } : World σ) = w := rfl
      simp only [hw, hc]
      rw [ih (k + 1) d w1]
      simp
    · have hw : ({ heap := w.heap, p := w.p } : World σ) = w := rfl
      simp only [hw, hc]

theorem reportChecks_traced {σ : Type} (cs : List (check σ)) :
    ∀ (k : Nat) (w : World σ) (domain : Domain) (log : List Call),
      processor.reportChecks (tracedFrom k cs) { heap := (w.heap, log), p := w.p } domain
        = ({ heap := ((processor.reportChecks cs w domain).1.heap,
                      log ++ reportLog k cs w domain),
             p := (processor.reportChecks cs w domain).1.p },
           (processor.reportChecks cs w domain).2) := by
  induction cs with
  | nil => intro k w domain log; simp [tracedFrom, processor.reportChecks, reportLog]
  | cons c cs ih =>
    intro k w domain log
    rw [tracedFrom_cons]
    simp only [processor.reportChecks, reportLog, traced]
    rcases hc : c.report w domain with ⟨w1, domain1⟩
    have hw : ({ heap := w.heap, p := w.p } : World σ) = w := rfl
    simp only [hw, hc]
    rw [ih (k + 1) w1]
    simp

theorem runDomains_traced {σ : Type} (checks : List (check σ)) (ds : List String) :
    ∀ (w : World σ) (log : List Call) (report : Report),
      processor.runDomains (tracedFrom 0 checks) ds { heap := (w.heap, log), p := w.p } report
        = ({ heap := ((processor.runDomains checks ds w report).1.heap,
                      log ++ domainsLog checks ds w),
             p := (processor.runDomains checks ds w report).1.p },
           (processor.runDomains checks ds w report).2) := by
  induction ds with
  | nil => intro w log report; simp [processor.runDomains, domainsLog]
  | cons d ds ih =>
    intro w log report
    simp only [processor.runDomains, domainsLog]
    rw [runChecks_traced]
    rcases h1 : processor.runChecks checks d w with ⟨w1, _ | err⟩
    · simp only
      rw [reportChecks_traced]
      rcases h2 : processor.reportChecks checks w1 { Name := d, Requirements := [] }
        with ⟨w2, domain⟩
      simp only
      have := ih { heap := w2.heap, p := w2.p.clean }
        (log ++ runLog 0 checks d w ++ reportLog 0 checks w1 { Name := d, Requirements := [] })
        { Domains := report.Domains ++ [domain] }
      simp only at this
      rw [this]
      simp [List.append_assoc]
    · simp

theorem callTrace_eq {σ : Type} (checks : List (check σ)) (domains : List String)
    (w : World σ) : callTrace checks domains w = domainsLog checks domains w := by
  unfold callTrace processor.run
  rw [runDomains_traced]
  simp

/-! ## What the logs hold -/

theorem runLog_ok {σ : Type} (cs : List (check σ)) :
    ∀ (k : Nat) (d : String) (w : World σ),
      (processor.runChecks cs d w).2 = none →
        (runLog k cs d w).map Call.sig
            = (List.range' k cs.length).map (fun j => CallSig.run j d) ∧
        (∀ c ∈ runLog k cs d w, c.err = none) ∧
        (runLog k cs d w).filterMap Call.reported = [] := by
  induction cs with
  | nil => intro k d w _; simp [runLog]
  | cons c cs ih =>
    intro k d w h
    simp only [processor.runChecks, runLog] at h ⊢
    rcases hc : c.run w d with ⟨w1, _ | err⟩
    · simp only [hc] at h ⊢
      obtain ⟨h1, h2, h3⟩ := ih (k + 1) d w1 h
      refine ⟨?_, ?_, ?_⟩
      · simp [List.range'_succ, h1, Call.sig]
      · intro x hx
        rcases List.mem_cons.mp hx with rfl | hx
        · rfl
        · exact h2 x hx
      · simp [List.filterMap_cons, Call.reported, h3]
    · simp [hc] at h

theorem runLog_fail {σ : Type} (cs : List (check σ)) :
    ∀ (k : Nat) (d : String) (w : World σ) (e : String),
      (processor.runChecks cs d w).2 = some e →
        ∃ (j : Nat) (init : List Call) (last : Call),
          j < cs.length ∧ runLog k cs d w = init ++ [last] ∧
          init.map Call.sig = (List.range' k j).map (fun j => CallSig.run j d) ∧
          (∀ c ∈ init, c.err = none) ∧
          last.sig = CallSig.run (k + j) d ∧ last.err = some e := by
  induction cs with
  | nil => intro k d w e h; simp [processor.runChecks] at h
  | cons c cs ih =>
    intro k d w e h
    simp only [processor.runChecks, runLog] at h ⊢
    rcases hc : c.run w d with ⟨w1, _ | err⟩
    · simp only [hc] at h ⊢
      obtain ⟨j, init, last, hj, hlog, hsig, herr, hls, hle⟩ := ih (k + 1) d w1 e h
      refine ⟨j + 1, Call.run k d w.p.redirects none :: init, last, by simpa using hj,
        by simp [hlog], ?_, ?_, ?_, hle⟩
      · simp [List.range'_succ, hsig, Call.sig]
      · intro x hx
        rcases List.mem_cons.mp hx with rfl | hx
        · rfl
        · exact herr x hx
      · rw [hls]; congr 1; omega
    · simp only [hc] at h ⊢
      injection h with h
      subst h
      exact ⟨0, [], _, by simp, rfl, by simp, by simp, rfl, rfl⟩

theorem reportLog_sig {σ : Type} (cs : List (check σ)) :
    ∀ (k : Nat) (w : World σ) (domain : Domain),
      (reportLog k cs w domain).map Call.sig
          = (List.range' k cs.length).map (fun j => CallSig.report j) ∧
      (∀ c ∈ reportLog k cs w domain, c.err = none) := by
  induction cs with
  | nil => intro k w domain; simp [reportLog]
  | cons c cs ih =>
    intro k w domain
    simp only [reportLog]
    obtain ⟨h1, h2⟩ := ih (k + 1) (c.report w domain).1 (c.report w domain).2
    refine ⟨by simp [List.range'_succ, h1, Call.sig], ?_⟩
    intro x hx
    rcases List.mem_cons.mp hx with rfl | hx
    · rfl
    · exact h2 x hx

theorem runCalls_eq (n : Nat) (d : String) :
    runCalls n d = (List.range' 0 n).map (fun j => CallSig.run j d) := by
  simp [runCalls, List.range_eq_range']

theorem reportCalls_eq (n : Nat) :
    reportCalls n = (List.range' 0 n).map (fun j => CallSig.report j) := by
  simp [reportCalls, List.range_eq_range']

theorem runCalls_succ (n : Nat) (d : String) :
    runCalls (n + 1) d = runCalls n d ++ [CallSig.run n d] := by
  simp [runCalls, List.range_succ]

theorem domainsLog_ok {σ : Type} (checks : List (check σ)) (ds : List String) :
    ∀ (w : World σ) (report : Report),
      (processor.runDomains checks ds w report).2.2 = none →
        (domainsLog checks ds w).map Call.sig = ds.flatMap (domainCalls checks.length) ∧
        (∀ c ∈ domainsLog checks ds w, c.err = none) ∧
        ∃ rep, (processor.runDomains checks ds w report).2.1 = some rep := by
  induction ds with
  | nil => intro w report _; simp [domainsLog, processor.runDomains]
  | cons d ds ih =>
    intro w report h
    simp only [processor.runDomains, domainsLog] at h ⊢
    rcases h1 : processor.runChecks checks d w with ⟨w1, _ | err⟩
    · simp only [h1] at h ⊢
      have hr := runLog_ok checks 0 d w (by rw [h1])
      have hp := reportLog_sig checks 0 w1 { Name := d, Requirements := [] }
      obtain ⟨i1, i2, i3⟩ := ih _ _ h
      refine ⟨?_, ?_, i3⟩
      · simp only [List.map_append, List.flatMap_cons, hr.1, hp.1, i1, domainCalls,
          runCalls_eq, reportCalls_eq]
      · intro c hc
        simp only [List.mem_append] at hc
        rcases hc with (hc | hc) | hc
        · exact hr.2.1 c hc
        · exact hp.2 c hc
        · exact i2 c hc
    · simp [h1] at h

theorem domainsLog_fail {σ : Type} (checks : List (check σ)) (ds : List String) :
    ∀ (w : World σ) (report : Report) (e : String),
      (processor.runDomains checks ds w report).2.2 = some e →
        (processor.runDomains checks ds w report).2.1 = none ∧
        ∃ (ds1 : List String) (d : String) (ds2 : List String) (j : Nat)
          (init : List Call) (last : Call),
          ds = ds1 ++ d :: ds2 ∧ j < checks.length ∧
          domainsLog checks ds w = init ++ [last] ∧
          init.map Call.sig = ds1.flatMap (domainCalls checks.length) ++ runCalls j d ∧
          (∀ c ∈ init, c.err = none) ∧
          last.sig = CallSig.run j d ∧ last.err = some e := by
  induction ds with
  | nil => intro w report e h; simp [processor.runDomains] at h
  | cons d ds ih =>
    intro w report e h
    simp only [processor.runDomains, domainsLog] at h ⊢
    rcases h1 : processor.runChecks checks d w with ⟨w1, _ | err⟩
    · simp only [h1] at h ⊢
      have hr := runLog_ok checks 0 d w (by rw [h1])
      have hp := reportLog_sig checks 0 w1 { Name := d, Requirements := [] }
      obtain ⟨i0, ds1, d1, ds2, j, init, last, hds, hj, hlog, hsig, herr, hls, hle⟩ :=
        ih _ _ e h
      refine ⟨i0, d :: ds1, d1, ds2, j,
        runLog 0 checks d w ++ reportLog 0 checks w1 { Name := d, Requirements := [] }
          ++ init, last, by simp [hds], hj, by simp [hlog], ?_, ?_, hls, hle⟩
      · simp only [List.map_append, List.flatMap_cons, hr.1, hp.1, hsig, domainCalls,
          runCalls_eq, reportCalls_eq, List.append_assoc]
      · intro c hc
        simp only [List.mem_append] at hc
        rcases hc with (hc | hc) | hc
        · exact hr.2.1 c hc
        · exact hp.2 c hc
        · exact herr c hc
    · simp only [h1] at h ⊢
      injection h with h
      subst h
      obtain ⟨j, init, last, hj, hlog, hsig, herr, hls, hle⟩ :=
        runLog_fail checks 0 d w err (by rw [h1])
      refine ⟨trivial, [], d, ds, j, init, last, rfl, hj, hlog, ?_, herr, ?_, hle⟩
      · simp [hsig, runCalls_eq]
      · simpa using hls

theorem run_err_none_of_trace {σ : Type} (checks : List (check σ)) (domains : List String)
    (w : World σ) (h : ∀ c ∈ callTrace checks domains w, c.err = none) :
    (processor.run checks domains w).2.2 = none := by
  rcases hr : (processor.run checks domains w).2.2 with _ | e
  · rfl
  · obtain ⟨_, ds1, d, ds2, j, init, last, _, _, hlog, _, _, _, hle⟩ :=
      domainsLog_fail checks domains w { Domains := [] } e hr
    have := h last (by rw [callTrace_eq, hlog]; simp)
    rw [hle] at this
    cases this

/-- C9: the calls `processor.run` makes are, domain after domain, the `run` of
every check in list order followed by the `report` of every check in list order;
a run that aborts ends, after the completed domains, with `run` calls only. So
every `report` call for a domain comes after all the `run` calls for it. -/
theorem run_calls_precede_report_calls {σ : Type} (checks : List (check σ))
    (domains : List String) (w : World σ) :
    ((processor.run checks domains w).2.2 = none ∧
      (callTrace checks domains w).map Call.sig
        = domains.flatMap (domainCalls checks.length)) ∨
    (∃ (e : String) (ds1 : List String) (d : String) (ds2 : List String) (j : Nat),
      (processor.run checks domains w).2.2 = some e ∧
      domains = ds1 ++ d :: ds2 ∧ j < checks.length ∧
      (callTrace checks domains w).map Call.sig
        = ds1.flatMap (domainCalls checks.length)
            ++ runCalls (j + 1) d) := by
  rcases hr : (processor.run checks domains w).2.2 with _ | e
  · left
    refine ⟨rfl, ?_⟩
    rw [callTrace_eq]
    exact (domainsLog_ok checks domains w { Domains := [] } hr).1
  · right
    obtain ⟨_, ds1, d, ds2, j, init, last, hds, hj, hlog, hsig, _, hls, _⟩ :=
      domainsLog_fail checks domains w { Domains := [] } e hr
    refine ⟨e, ds1, d, ds2, j, rfl, hds, hj, ?_⟩
    rw [callTrace_eq, hlog, List.map_append, hsig, runCalls_succ]
    simp [hls]

theorem reportChecks_appends {σ : Type} (cs : List (check σ)) :
    (∀ ch ∈ cs, ch.appendsOne) →
    ∀ (k : Nat) (w : World σ) (domain : Domain),
      ∃ rs : List Requirement, rs.length = cs.length ∧
        (processor.reportChecks cs w domain).2
          = { Name := domain.Name, Requirements := domain.Requirements ++ rs } ∧
        (reportLog k cs w domain).filterMap Call.reported
          = (List.range cs.length).map (fun t =>
              (k + t,
               { Name := domain.Name, Requirements := domain.Requirements ++ rs.take t },
               { Name := domain.Name,
                 Requirements := domain.Requirements ++ rs.take (t + 1) })) := by
  induction cs with
  | nil =>
    intro _ k w domain
    exact ⟨[], rfl, by simp [processor.reportChecks], by simp [reportLog]⟩
  | cons c cs ih =>
    intro hrep k w domain
    obtain ⟨r, hr⟩ := hrep c (List.mem_cons_self _ _) w domain
    obtain ⟨rs, hlen, hdom, hlog⟩ :=
      ih (fun ch hch => hrep ch (List.mem_cons_of_mem _ hch)) (k + 1)
        (c.report w domain).1 (c.report w domain).2
    refine ⟨r :: rs, by simp [hlen], ?_, ?_⟩
    · simp only [processor.reportChecks]
      rw [hdom, hr]
      simp
    · simp only [reportLog, List.filterMap_cons, Call.reported, hlog, List.length_cons,
        List.range_succ_eq_map, List.map_cons, List.map_map]
      rw [hr]
      refine congrArg₂ List.cons ?_ ?_
      · simp
      · apply List.map_congr_left
        intro t _
        simp [Nat.add_assoc, Nat.add_comm 1 t]

theorem runDomains_appends {σ : Type} (checks : List (check σ))
    (hrep : ∀ ch ∈ checks, ch.appendsOne) (ds : List String) :
    ∀ (w : World σ) (report : Report),
      (processor.runDomains checks ds w report).2.2 = none →
        ∃ newDs : List Domain,
          (processor.runDomains checks ds w report).2.1
            = some { Domains := report.Domains ++ newDs } ∧
          newDs.map Domain.Name = ds ∧
          (∀ D ∈ newDs, D.Requirements.length = checks.length) ∧
          (domainsLog checks ds w).filterMap Call.reported
            = newDs.flatMap (buildCalls checks.length) := by
  induction ds with
  | nil =>
    intro w report _
    exact ⟨[], by simp [processor.runDomains], rfl, by simp, by simp [domainsLog]⟩
  | cons d ds ih =>
    intro w report h
    simp only [processor.runDomains, domainsLog] at h ⊢
    rcases h1 : processor.runChecks checks d w with ⟨w1, _ | err⟩
    · simp only [h1] at h ⊢
      have hr := runLog_ok checks 0 d w (by rw [h1])
      obtain ⟨rs, hlen, hdom, hlog⟩ :=
        reportChecks_appends checks hrep 0 w1 { Name := d, Requirements := [] }
      obtain ⟨newDs, i1, i2, i3, i4⟩ := ih _ _ h
      refine ⟨{ Name := d, Requirements := rs } :: newDs, ?_, ?_, ?_, ?_⟩
      · rw [i1, hdom]; simp
      · simp [i2]
      · intro D hD
        rcases List.mem_cons.mp hD with rfl | hD
        · exact hlen
        · exact i3 D hD
      · simp only [List.filterMap_append, hr.2.2, hlog, i4, List.flatMap_cons,
          List.nil_append, buildCalls, hlen]
        simp
    · simp [h1] at h

theorem checkAt_appendsOne (a : Nat) : (checkAt a).appendsOne := by
  intro w domain
  cases h : w.heap a <;>
    exact ⟨_, by simp only [checkAt, h]; rfl⟩

/-- C1: when every check's `report` appends one Requirement and no `run` call
fails, `processor.run` returns a Report and no error; the Report has one Domain
per input domain, named after the input domains in order; every Domain has one
Requirement per check; and the `report` calls made are exactly those that build
these Domains in check order: for each Domain in turn, the check at position
j = 0, 1, ... receives the Domain holding its first j Requirements and hands it
back holding its first j + 1. For no domains the Report is empty, with no error. -/
theorem run_report_shape {σ : Type} (checks : List (check σ)) (domains : List String)
    (w : World σ) (hrep : ∀ ch ∈ checks, ch.appendsOne)
    (hrun : ∀ c ∈ callTrace checks domains w, c.err = none) :
    ∃ rep : Report,
      (processor.run checks domains w).2 = (some rep, none) ∧
      rep.Domains.length = domains.length ∧
      rep.Domains.map Domain.Name = domains ∧
      (∀ D ∈ rep.Domains, D.Requirements.length = checks.length) ∧
      (callTrace checks domains w).filterMap Call.reported
        = rep.Domains.flatMap (buildCalls checks.length) ∧
      (processor.run checks [] w).2 = (some { Domains := [] }, none) := by
  have herr := run_err_none_of_trace checks domains w hrun
  obtain ⟨newDs, h1, h2, h3, h4⟩ :=
    runDomains_appends checks hrep domains w { Domains := [] } herr
  refine ⟨{ Domains := newDs }, ?_, ?_, h2, h3, ?_, rfl⟩
  · apply Prod.ext
    · simpa using h1
    · exact herr
  · rw [← h2]; simp
  · rw [callTrace_eq]; exact h4

/-- Instance: two concrete checks, a `tlsCheck` and a `redirectsCheck`, over two
domains. -/
theorem run_report_shape_witness :
    (∀ ch ∈ [checkAt 0, checkAt 1], ch.appendsOne) ∧
    (∀ c ∈ callTrace [checkAt 0, checkAt 1] ["a.example", "b.example"]
        { heap := sampleHeap, p := newProcessor { Insecure := false } }, c.err = none) ∧
    ∃ rep : Report,
      (processor.run [checkAt 0, checkAt 1] ["a.example", "b.example"]
        { heap := sampleHeap, p := newProcessor { Insecure := false } }).2 = (some rep, none) ∧
      rep.Domains.length = ["a.example", "b.example"].length ∧
      rep.Domains.map Domain.Name = ["a.example", "b.example"] ∧
      (∀ D ∈ rep.Domains, D.Requirements.length = [checkAt 0, checkAt 1].length) ∧
      (callTrace [checkAt 0, checkAt 1] ["a.example", "b.example"]
          { heap := sampleHeap, p := newProcessor { Insecure := false } }).filterMap
            Call.reported
        = rep.Domains.flatMap (buildCalls [checkAt 0, checkAt 1].length) ∧
      (processor.run [checkAt 0, checkAt 1] []
        { heap := sampleHeap, p := newProcessor { Insecure := false } }).2
        = (some { Domains := [] }, none) :=
  have hrep : ∀ ch ∈ [checkAt 0, checkAt 1], ch.appendsOne := by
    intro ch hch
    simp only [List.mem_cons, List.mem_singleton, List.not_mem_nil, or_false] at hch
    rcases hch with rfl | rfl <;> exact checkAt_appendsOne _
  ⟨hrep, by decide,
    run_report_shape [checkAt 0, checkAt 1] ["a.example", "b.example"]
      { heap := sampleHeap, p := newProcessor { Insecure := false } } hrep (by decide)⟩

/-- C2: when some `run` call returns a failure, `processor.run` returns no Report
and exactly that failure. The failing call is the last call made, it is the `run`
of the check at position j for the domain d, and every call before it succeeded:
the earlier domains were completed, and for d only the `run` calls of the checks
before position j were made; no `report` call for d and no call at all for a
later domain. -/
theorem run_aborts_on_first_failure {σ : Type} (checks : List (check σ))
    (domains : List String) (w : World σ)
    (h : ∃ c ∈ callTrace checks domains w, c.err ≠ none) :
    ∃ (e : String) (ds1 : List String) (d : String) (ds2 : List String) (j : Nat)
      (init : List Call) (last : Call),
      (processor.run checks domains w).2 = (none, some e) ∧
      domains = ds1 ++ d :: ds2 ∧ j < checks.length ∧
      callTrace checks domains w = init ++ [last] ∧
      last.sig = CallSig.run j d ∧ last.err = some e ∧
      (∀ c ∈ init, c.err = none) ∧
      init.map Call.sig = ds1.flatMap (domainCalls checks.length) ++ runCalls j d := by
  rcases hr : (processor.run checks domains w).2.2 with _ | e
  · obtain ⟨c, hc, hne⟩ := h
    rw [callTrace_eq] at hc
    exact absurd ((domainsLog_ok checks domains w { Domains := [] } hr).2.1 c hc) hne
  · obtain ⟨h0, ds1, d, ds2, j, init, last, hds, hj, hlog, hsig, herr, hls, hle⟩ :=
      domainsLog_fail checks domains w { Domains := [] } e hr
    refine ⟨e, ds1, d, ds2, j, init, last, Prod.ext h0 hr, hds, hj, ?_, hls, hle, herr,
      hsig⟩
    rw [callTrace_eq, hlog]

/-- Instance: the third of five checks fails on the second of three domains. -/
theorem run_aborts_on_first_failure_witness :
    (∃ c ∈ callTrace sampleFailingChecks ["a.example", "b.example", "c.example"]
        { heap := (), p := newProcessor { Insecure := false } }, c.err ≠ none) ∧
    ∃ (e : String) (ds1 : List String) (d : String) (ds2 : List String) (j : Nat)
      (init : List Call) (last : Call),
      (processor.run sampleFailingChecks ["a.example", "b.example", "c.example"]
        { heap := (), p := newProcessor { Insecure := false } }).2 = (none, some e) ∧
      ["a.example", "b.example", "c.example"] = ds1 ++ d :: ds2 ∧
      j < sampleFailingChecks.length ∧
      callTrace sampleFailingChecks ["a.example", "b.example", "c.example"]
        { heap := (), p := newProcessor { Insecure := false } } = init ++ [last] ∧
      last.sig = CallSig.run j d ∧ last.err = some e ∧
      (∀ c ∈ init, c.err = none) ∧
      init.map Call.sig
        = ds1.flatMap (domainCalls sampleFailingChecks.length) ++ runCalls j d :=
  ⟨by decide,
    run_aborts_on_first_failure sampleFailingChecks ["a.example", "b.example", "c.example"]
      { heap := (), p := newProcessor { Insecure := false } } (by decide)⟩

theorem runLog_first_seen {σ : Type} (cs : List (check σ)) :
    ∀ (k : Nat) (d : String) (w : World σ) (j : Nat) (d1 : String) (seen : GoMap)
      (err : Option String),
      Call.run j d1 seen err ∈ runLog k cs d w →
        (j = k ∧ seen = w.p.redirects) ∨ k < j := by
  induction cs with
  | nil => intro k d w j d1 seen err h; simp [runLog] at h
  | cons c cs ih =>
    intro k d w j d1 seen err h
    simp only [runLog] at h
    rcases hc : c.run w d with ⟨w1, _ | e⟩
    · simp only [hc, List.mem_cons] at h
      rcases h with h | h
      · injection h with h1 h2 h3 h4
        exact Or.inl ⟨h1, h3⟩
      · rcases ih (k + 1) d w1 j d1 seen err h with ⟨h1, _⟩ | h1
        · exact Or.inr (by omega)
        · exact Or.inr (by omega)
    · simp only [hc, List.mem_singleton] at h
      injection h with h1 h2 h3 h4
      exact Or.inl ⟨h1, h3⟩

theorem reportLog_no_run {σ : Type} (cs : List (check σ)) :
    ∀ (k : Nat) (w : World σ) (domain : Domain) (j : Nat) (d1 : String) (seen : GoMap)
      (err : Option String), Call.run j d1 seen err ∉ reportLog k cs w domain := by
  induction cs with
  | nil => intro k w domain j d1 seen err h; simp [reportLog] at h
  | cons c cs ih =>
    intro k w domain j d1 seen err h
    simp only [reportLog, List.mem_cons] at h
    rcases h with h | h
    · cases h
    · exact ih _ _ _ _ _ _ _ h

theorem domainsLog_first_seen {σ : Type} (checks : List (check σ)) (ds : List String) :
    ∀ (w : World σ), w.p.redirects = GoMap.empty →
      ∀ (d1 : String) (seen : GoMap) (err : Option String),
        Call.run 0 d1 seen err ∈ domainsLog checks ds w → seen = GoMap.empty := by
  induction ds with
  | nil => intro w _ d1 seen err h; simp [domainsLog] at h
  | cons d ds ih =>
    intro w hw d1 seen err h
    have hrun : Call.run 0 d1 seen err ∈ runLog 0 checks d w → seen = GoMap.empty := by
      intro h1
      rcases runLog_first_seen checks 0 d w 0 d1 seen err h1 with ⟨_, h2⟩ | h2
      · rw [h2, hw]
      · omega
    simp only [domainsLog] at h
    rcases h1 : processor.runChecks checks d w with ⟨w1, _ | e⟩
    · simp only [h1, List.mem_append] at h
      rcases h with (h | h) | h
      · exact hrun h
      · exact absurd h (reportLog_no_run _ _ _ _ _ _ _ _)
      · exact ih _ (processor.clean_redirects _) d1 seen err h
    · simp only [h1] at h
      exact hrun h

theorem probe_then_redirects_run (hops : String → List (Request × List Request))
    (req : Requirement) (a : Nat) (d : String) (w : World Heap) (rc : redirectsCheck)
    (h : w.heap a = .redirects rc) :
    processor.runChecks [probeCheck hops req, checkAt a] d w
      = ({ heap := w.heap,
           p := (hops d).foldl (fun p h => (p.checkRedirect h.1 h.2).1) w.p }, none) := by
  simp only [processor.runChecks, probeCheck, checkAt, h, concreteCheck.run,
    redirectsCheck.run]
  rw [← h, Function.update_eq_self]

theorem probe_then_redirects_report (hops : String → List (Request × List Request))
    (req : Requirement) (a : Nat) (domain : Domain) (w : World Heap) (rc : redirectsCheck)
    (h : w.heap a = .redirects rc) :
    processor.reportChecks [probeCheck hops req, checkAt a] w domain
      = ({ heap := Function.update w.heap a (.redirects (rc.report w.p domain).1),
           p := w.p },
         { Name := domain.Name,
           Requirements := domain.Requirements ++
             [req, { Num := rc.baseCheck.num, Description := rc.baseCheck.description,
                     Messages := (sortStrings w.p.redirects.keys).map
                       (fun k => sprintfRedirect k (w.p.redirects.get k)) }] }) := by
  simp only [processor.reportChecks, probeCheck, checkAt, h, concreteCheck.report,
    redirectsCheck.report_eq]
  simp

/-- C3: in `processor.run` on a processor made by `newProcessor`, every call of
the first check's `run` finds the redirect map empty; and with a probing check
followed by the `redirectsCheck`, on the domains [A, B] where probing B records no
redirect, the Requirement the `redirectsCheck` reports for B has no messages,
whatever probing A recorded. -/
theorem redirects_empty_at_domain_start :
    (∀ (σ : Type) (checks : List (check σ)) (domains : List String) (heap : σ)
        (opts : options) (d : String) (seen : GoMap) (err : Option String),
      Call.run 0 d seen err
          ∈ callTrace checks domains { heap := heap, p := newProcessor opts } →
        seen = GoMap.empty) ∧
    (∀ (hops : String → List (Request × List Request)) (req : Requirement)
        (A B : String) (a : Nat) (rc : redirectsCheck) (heap : Heap) (opts : options),
      hops B = [] → heap a = .redirects rc →
        ∃ DA : Domain,
          (processor.run [probeCheck hops req, checkAt a] [A, B]
              { heap := heap, p := newProcessor opts }).2
            = (some { Domains :=
                [DA, { Name := B,
                       Requirements :=
                         [req, { Num := rc.baseCheck.num,
                                 Description := rc.baseCheck.description,
                                 Messages := [] }] }] }, none)) := by
  constructor
  · intro σ checks domains heap opts d seen err h
    rw [callTrace_eq] at h
    exact domainsLog_first_seen checks domains _ rfl d seen err h
  · intro hops req A B a rc heap opts hB ha
    have hA : (Function.update heap a
          (.redirects (rc.report
            ((hops A).foldl (fun p h => (p.checkRedirect h.1 h.2).1) (newProcessor opts))
            { Name := A, Requirements := [] }).1)) a
        = .redirects (rc.report
            ((hops A).foldl (fun p h => (p.checkRedirect h.1 h.2).1) (newProcessor opts))
            { Name := A, Requirements := [] }).1 := Function.update_same _ _ _
    simp only [processor.run, processor.runDomains]
    rw [probe_then_redirects_run hops req a A _ rc ha]
    simp only
    rw [probe_then_redirects_report hops req a _ _ rc ha]
    simp only
    rw [probe_then_redirects_run hops req a B _ _ hA]
    simp only
    rw [probe_then_redirects_report hops req a _ _ _ hA]
    simp only [hB, List.foldl_nil, processor.clean_redirects]
    exact ⟨_, rfl⟩

/-- Instance: probing "a.example" records a redirect, probing "b.example" does
not, and the Redirects requirement of "b.example" has no messages. -/
theorem redirects_empty_at_domain_start_witness :
    sampleHops "b.example" = [] ∧
    sampleHeap 1
      = .redirects { baseCheck := { num := 2, description := "Redirects", messages := [] } } ∧
    ∃ DA : Domain,
      (processor.run
          [probeCheck sampleHops { Num := 0, Description := "probe", Messages := [] },
           checkAt 1]
          ["a.example", "b.example"]
          { heap := sampleHeap, p := newProcessor { Insecure := false } }).2
        = (some { Domains :=
            [DA, { Name := "b.example",
                   Requirements :=
                     [{ Num := 0, Description := "probe", Messages := [] },
                      { Num := 2, Description := "Redirects", Messages := [] }] }] }, none) :=
  ⟨by decide, by decide,
    redirects_empty_at_domain_start.2 sampleHops
      { Num := 0, Description := "probe", Messages := [] } "a.example" "b.example" 1
      { baseCheck := { num := 2, description := "Redirects", messages := [] } }
      sampleHeap { Insecure := false } (by decide) (by decide)⟩

/-- The probing run evaluated in full: the redirect recorded for "a.example" is
reported for "a.example" and gone for "b.example". -/
theorem sample_probe_run :
    (processor.run
        [probeCheck sampleHops { Num := 0, Description := "probe", Messages := [] },
         checkAt 1]
        ["a.example", "b.example"]
        { heap := sampleHeap, p := newProcessor { Insecure := false } }).2
      = (some { Domains :=
          [{ Name := "a.example",
             Requirements :=
               [{ Num := 0, Description := "probe", Messages := [] },
                { Num := 2, Description := "Redirects",
                  Messages := ["Redirect https://a.example/csaf: http://a.example/csaf"] }] },
           { Name := "b.example",
             Requirements :=
               [{ Num := 0, Description := "probe", Messages := [] },
                { Num := 2, Description := "Redirects", Messages := [] }] }] }, none) := by
  decide

/-- The failing run evaluated in full: the error of the third check on "b.example" is
returned, after the five run and five report calls for "a.example" and three run
calls for "b.example". -/
theorem sample_failing_run :
    (processor.run sampleFailingChecks ["a.example", "b.example", "c.example"]
        { heap := (), p := newProcessor { Insecure := false } }).2 = (none, some "fatal") ∧
    (callTrace sampleFailingChecks ["a.example", "b.example", "c.example"]
        { heap := (), p := newProcessor { Insecure := false } }).map Call.sig
      = domainCalls 5 "a.example" ++ runCalls 3 "b.example" := by
  decide

/-! ## The later claims: client, frame of `checkRedirect`, chains -/

theorem GoMap.find_filter_ne (l : List (String × String)) (k k1 : String) (h : k1 ≠ k) :
    (l.filter (fun e => e.1 ≠ k)).find? (fun e => e.1 = k1)
      = l.find? (fun e => e.1 = k1) := by
  induction l with
  | nil => rfl
  | cons e rest ih =>
    by_cases hk : e.1 = k
    · have hne : e.1 ≠ k1 := fun heq => h (heq ▸ hk)
      rw [List.filter_cons_of_neg (by simpa using hk),
        List.find?_cons_of_neg _ (by simpa using hne), ih]
    · rw [List.filter_cons_of_pos (by simpa using hk)]
      by_cases hk1 : e.1 = k1
      · rw [List.find?_cons_of_pos _ (by simpa using hk1),
          List.find?_cons_of_pos _ (by simpa using hk1)]
      · rw [List.find?_cons_of_neg _ (by simpa using hk1),
          List.find?_cons_of_neg _ (by simpa using hk1), ih]

theorem GoMap.lookup_set_other (m : GoMap) (k v k1 : String) (h : k1 ≠ k) :
    (m.set k v).lookup k1 = m.lookup k1 := by
  have hne : k ≠ k1 := fun heq => h heq.symm
  unfold GoMap.lookup GoMap.set
  simp only
  rw [List.find?_append, GoMap.find_filter_ne _ _ _ h,
    List.find?_cons_of_neg _ (by simpa using hne), List.find?_nil, Option.or_none]

theorem GoMap.length_filter_of_not_mem (l : List (String × String)) (k : String)
    (h : k ∉ l.map Prod.fst) : (l.filter (fun e => e.1 ≠ k)).length = l.length := by
  induction l with
  | nil => rfl
  | cons e rest ih =>
    simp only [List.map_cons, List.mem_cons, not_or] at h
    have hk : e.1 ≠ k := fun heq => h.1 heq.symm
    rw [List.filter_cons_of_pos (by simpa using hk), List.length_cons, List.length_cons,
      ih h.2]

theorem GoMap.length_filter_of_mem (l : List (String × String)) (k : String)
    (hn : (l.map Prod.fst).Nodup) (h : k ∈ l.map Prod.fst) :
    (l.filter (fun e => e.1 ≠ k)).length + 1 = l.length := by
  induction l with
  | nil => simp at h
  | cons e rest ih =>
    simp only [List.map_cons, List.nodup_cons] at hn
    by_cases hk : e.1 = k
    · have hrest : k ∉ rest.map Prod.fst := hk ▸ hn.1
      rw [List.filter_cons_of_neg (by simpa using hk), List.length_cons,
        GoMap.length_filter_of_not_mem rest k hrest]
    · have hmem : k ∈ rest.map Prod.fst := by
        simp only [List.map_cons, List.mem_cons] at h
        rcases h with h | h
        · exact absurd h.symm hk
        · exact h
      rw [List.filter_cons_of_pos (by simpa using hk), List.length_cons, List.length_cons,
        ih hn.2 hmem]

theorem GoMap.len_set_of_not_mem (m : GoMap) (k v : String) (h : k ∉ m.keys) :
    (m.set k v).len = m.len + 1 := by
  unfold GoMap.len GoMap.set
  simp only
  rw [List.length_append, GoMap.length_filter_of_not_mem m.entries k h]
  rfl

theorem GoMap.len_set_of_mem (m : GoMap) (k v : String) (h : k ∈ m.keys) :
    (m.set k v).len = m.len := by
  unfold GoMap.len GoMap.set
  simp only
  rw [List.length_append]
  exact GoMap.length_filter_of_mem m.entries k m.nodup h

/-- C13: the client built by `httpClient` skips TLS certificate validation exactly
when the option `Insecure` is set: without it the client has no transport of its
own (the default, validating one is used), with it the transport carries a TLS
configuration with `InsecureSkipVerify` set; either way the redirect hook is the
processor's `checkRedirect`. -/
theorem httpClient_insecure_iff (p : processor) :
    (p.httpClient.skipsVerify = true ↔ p.opts.Insecure = true) ∧
    (p.opts.Insecure = false → p.httpClient.Transport = none) ∧
    (p.opts.Insecure = true →
      p.httpClient.Transport
        = some { TLSClientConfig := some { InsecureSkipVerify := true } }) ∧
    p.httpClient.CheckRedirect = some processor.checkRedirect := by
  unfold processor.httpClient
  cases h : p.opts.Insecure <;> simp [Client.skipsVerify]

/-- C15: `checkRedirect` records before it checks the ceiling: when `via` has more
than 10 entries it returns the error "Too many redirections" and the redirect map
nevertheless holds, under `r.URL`, the joined `via` chain afterwards, which
`redirectsCheck.report` then renders among its messages. -/
theorem checkRedirect_records_before_ceiling (p : processor) (r : Request)
    (via : List Request) (h : 10 < via.length) :
    (p.checkRedirect r via).2 = some "Too many redirections" ∧
    (p.checkRedirect r via).1.redirects.lookup r.URL = some (joinURLs via) ∧
    ∀ (rc : redirectsCheck) (domain : Domain),
      ∃ req, lastRequirement (rc.report (p.checkRedirect r via).1 domain).2.2 = some req ∧
        "Redirect " ++ r.URL ++ ": " ++ joinURLs via ∈ req.Messages := by
  refine ⟨?_, ?_, fun rc domain => ?_⟩
  · unfold processor.checkRedirect
    simp [h]
  · rw [checkRedirect_redirects]
    exact GoMap.lookup_set_self _ _ _
  · rw [redirectsCheck.report_eq]
    refine ⟨_, lastRequirement_append _ _ _, ?_⟩
    simp only [List.mem_map]
    refine ⟨r.URL, (sortStrings_perm _).mem_iff.mpr ?_, ?_⟩
    · rw [checkRedirect_redirects]
      exact GoMap.mem_keys_set _ _ _
    · rw [checkRedirect_redirects, GoMap.get_set_self]
      rfl

/-- Instance: a request for "https://x/z" after eleven earlier requests. -/
theorem checkRedirect_records_before_ceiling_witness :
    10 < (List.replicate 11 ({ URL := "https://x/a" } : Request)).length ∧
    ((newProcessor { Insecure := false }).checkRedirect { URL := "https://x/z" }
        (List.replicate 11 { URL := "https://x/a" })).2 = some "Too many redirections" ∧
    ((newProcessor { Insecure := false }).checkRedirect { URL := "https://x/z" }
        (List.replicate 11 { URL := "https://x/a" })).1.redirects.lookup
          ({ URL := "https://x/z" } : Request).URL
      = some (joinURLs (List.replicate 11 { URL := "https://x/a" })) ∧
    ∀ (rc : redirectsCheck) (domain : Domain),
      ∃ req, lastRequirement (rc.report
          ((newProcessor { Insecure := false }).checkRedirect { URL := "https://x/z" }
            (List.replicate 11 { URL := "https://x/a" })).1 domain).2.2 = some req ∧
        "Redirect " ++ ({ URL := "https://x/z" } : Request).URL ++ ": "
            ++ joinURLs (List.replicate 11 { URL := "https://x/a" }) ∈ req.Messages :=
  ⟨by decide,
    checkRedirect_records_before_ceiling (newProcessor { Insecure := false })
      { URL := "https://x/z" } (List.replicate 11 { URL := "https://x/a" }) (by decide)⟩

/-- C16: `checkRedirect(r, via)` changes the redirect map at key `r.URL` only: the
lookup of every other key is unchanged, the entry under `r.URL` is the new chain
whatever was there before, and the number of entries grows by one when the key is
new and stays the same when it is overwritten. -/
theorem checkRedirect_frame (p : processor) (r : Request) (via : List Request) :
    (∀ k : String, k ≠ r.URL →
      (p.checkRedirect r via).1.redirects.lookup k = p.redirects.lookup k) ∧
    (p.checkRedirect r via).1.redirects.lookup r.URL = some (joinURLs via) ∧
    (r.URL ∉ p.redirects.keys →
      (p.checkRedirect r via).1.redirects.len = p.redirects.len + 1) ∧
    (r.URL ∈ p.redirects.keys →
      (p.checkRedirect r via).1.redirects.len = p.redirects.len) ∧
    (p.checkRedirect r via).1.redirects.len ≤ p.redirects.len + 1 ∧
    (p.checkRedirect r via).1.opts = p.opts := by
  rw [checkRedirect_redirects]
  refine ⟨fun k hk => GoMap.lookup_set_other _ _ _ _ hk, GoMap.lookup_set_self _ _ _,
    GoMap.len_set_of_not_mem _ _ _, GoMap.len_set_of_mem _ _ _, ?_, ?_⟩
  · by_cases h : r.URL ∈ p.redirects.keys
    · rw [GoMap.len_set_of_mem _ _ _ h]; omega
    · rw [GoMap.len_set_of_not_mem _ _ _ h]
  · unfold processor.checkRedirect
    simp only
    split <;> rfl

theorem GoMap.mem_keys_set_iff (m : GoMap) (k v k1 : String) :
    k1 ∈ (m.set k v).keys ↔ k1 ∈ m.keys ∨ k1 = k := by
  unfold GoMap.keys GoMap.set
  simp only [List.map_append, List.mem_append, List.map_cons, List.map_nil,
    List.mem_singleton, List.mem_map, List.mem_filter]
  constructor
  · rintro (⟨e, ⟨he, _⟩, rfl⟩ | h)
    · exact Or.inl ⟨e, he, rfl⟩
    · exact Or.inr h
  · rintro (⟨e, he, rfl⟩ | h)
    · by_cases hk : e.1 = k
      · exact Or.inr hk
      · exact Or.inl ⟨e, ⟨he, by simpa using hk⟩, rfl⟩
    · exact Or.inr h

theorem checkRedirect_fails_more_than_ten_aux (p : processor) (r : Request)
    (via : List Request) :
    (p.checkRedirect r via).2
      = if 10 < via.length then some "Too many redirections" else none := by
  unfold processor.checkRedirect
  simp only [gt_iff_lt]
  split <;> rfl

theorem followFrom_keys (rest : List String) :
    ∀ (p : processor) (made : List Request) (k : String),
      k ∈ (followFrom p made rest).1.redirects.keys
        ↔ k ∈ p.redirects.keys ∨ k ∈ rest.take (11 - made.length + 1) := by
  induction rest with
  | nil => intro p made k; simp [followFrom]
  | cons u rest ih =>
    intro p made k
    have hkeys : ∀ k : String,
        k ∈ (p.checkRedirect { URL := u } made).1.redirects.keys
          ↔ k ∈ p.redirects.keys ∨ k = u := by
      intro k
      rw [checkRedirect_redirects]
      exact GoMap.mem_keys_set_iff _ _ _ _
    have herr := (checkRedirect_fails_more_than_ten_aux p { URL := u } made)
    simp only [followFrom, List.take_succ_cons, List.mem_cons]
    rcases hc : p.checkRedirect { URL := u } made with ⟨p1, _ | err⟩
    · have hlen : made.length ≤ 10 := by
        rw [hc] at herr
        by_contra hcon
        simp [show 10 < made.length by omega] at herr
      have hk := hkeys k
      rw [hc] at hk
      simp only at hk ⊢
      have hi := ih p1 (made ++ [({ URL := u } : Request)]) k
      rw [List.length_append, List.length_singleton,
        show 11 - (made.length + 1) + 1 = 11 - made.length by omega] at hi
      rw [hi, hk]
      tauto
    · have hlen : 10 < made.length := by
        rw [hc] at herr
        by_contra hcon
        simp [hcon] at herr
      have hk := hkeys k
      rw [hc] at hk
      simp only at hk ⊢
      rw [hk, show 11 - made.length = 0 by omega, List.take_zero]
      simp

/-- C12 (as amended): following one redirect chain, with `checkRedirect` called once
per hop, leaves one entry per distinct URL redirected to, the intermediate ones
included: the keys afterwards are the keys held before and the URLs of the hops
made (at most eleven, the eleventh call failing), and from an empty map the number
of entries is the number of distinct such URLs. For the chain a -> b -> c from an
empty map these are two entries, "https://x/b" with the chain "https://x/a" and
the terminal "https://x/c" with the chain "https://x/a, https://x/b". -/
theorem chain_records_every_target (p : processor) (u0 : String) (rest : List String) :
    (∀ k : String, k ∈ (followChain p (u0 :: rest)).1.redirects.keys
        ↔ k ∈ p.redirects.keys ∨ k ∈ rest.take 11) ∧
    (p.redirects = GoMap.empty →
      (followChain p (u0 :: rest)).1.redirects.len = ((rest.take 11).dedup).length) ∧
    (∀ opts : options,
      (followChain (newProcessor opts)
          ["https://x/a", "https://x/b", "https://x/c"]).1.redirects.entries
        = [("https://x/b", "https://x/a"), ("https://x/c", "https://x/a, https://x/b")]) := by
  have hkeys : ∀ k : String, k ∈ (followChain p (u0 :: rest)).1.redirects.keys
      ↔ k ∈ p.redirects.keys ∨ k ∈ rest.take 11 := by
    intro k
    have := followFrom_keys rest p [{ URL := u0 }] k
    simpa [followChain] using this
  refine ⟨hkeys, fun hp => ?_, fun opts => rfl⟩
  have hperm : (followChain p (u0 :: rest)).1.redirects.keys.Perm (rest.take 11).dedup := by
    apply (List.perm_ext_iff_of_nodup (GoMap.nodup _) (List.nodup_dedup _)).mpr
    intro k
    have hk := hkeys k
    rw [hp] at hk
    refine hk.trans ?_
    simp [GoMap.keys, GoMap.empty]
  rw [← hperm.length_eq]
  simp [GoMap.keys, GoMap.len]

/-- The chain a -> b -> c from an empty map leaves two entries, not one: the
intermediate URL "https://x/b" is a key as well. -/
theorem chain_leaves_two_entries :
    (followChain (newProcessor { Insecure := false })
        ["https://x/a", "https://x/b", "https://x/c"]).1.redirects.len = 2 ∧
    (followChain (newProcessor { Insecure := false })
        ["https://x/a", "https://x/b", "https://x/c"]).1.redirects.len ≠ 1 ∧
    (followChain (newProcessor { Insecure := false })
        ["https://x/a", "https://x/b", "https://x/c"]).1.redirects.keys
      = ["https://x/b", "https://x/c"] := by
  decide

theorem redirects_alone_run (a : Nat) (d : String) (w : World Heap) (rc : redirectsCheck)
    (h : w.heap a = .redirects rc) :
    processor.runChecks [checkAt a] d w = (w, none) := by
  simp only [processor.runChecks, checkAt, h, concreteCheck.run, redirectsCheck.run]
  rw [← h, Function.update_eq_self]

theorem redirects_alone_report (a : Nat) (domain : Domain) (w : World Heap)
    (rc : redirectsCheck) (h : w.heap a = .redirects rc) :
    (processor.reportChecks [checkAt a] w domain).2
      = { Name := domain.Name,
          Requirements := domain.Requirements ++
            [{ Num := rc.baseCheck.num, Description := rc.baseCheck.description,
               Messages := (sortStrings w.p.redirects.keys).map
                 (fun k => sprintfRedirect k (w.p.redirects.get k)) }] } := by
  simp only [processor.reportChecks, checkAt, h, concreteCheck.report,
    redirectsCheck.report_eq]

/-- The end-to-end scenario with the redirect recorded during the run phase: with a
probing check in front of the `redirectsCheck`, and probing "example.org"
redirected once from http://example.org/.well-known/csaf to
https://example.org/.well-known/csaf, the Requirement of the `redirectsCheck` has
the one message for that redirect. Where nothing is probed at all, on a fresh
processor, that Requirement has no message. -/
theorem end_to_end_with_probe (hops : String → List (Request × List Request))
    (req : Requirement) (a : Nat) (rc : redirectsCheck) (heap : Heap) (opts : options)
    (hhops : hops "example.org"
      = [({ URL := "https://example.org/.well-known/csaf" },
          [{ URL := "http://example.org/.well-known/csaf" }])])
    (ha : heap a = .redirects rc) :
    (processor.run [probeCheck hops req, checkAt a] ["example.org"]
        { heap := heap, p := newProcessor opts }).2
      = (some { Domains :=
          [{ Name := "example.org",
             Requirements :=
               [req,
                { Num := rc.baseCheck.num, Description := rc.baseCheck.description,
                  Messages :=
                    ["Redirect https://example.org/.well-known/csaf: http://example.org/.well-known/csaf"] }] }] },
         none) ∧
    (processor.run [checkAt a] ["example.org"] { heap := heap, p := newProcessor opts }).2
      = (some { Domains :=
          [{ Name := "example.org",
             Requirements :=
               [{ Num := rc.baseCheck.num, Description := rc.baseCheck.description,
                  Messages := [] }] }] },
         none) := by
  constructor
  · simp only [processor.run, processor.runDomains]
    rw [probe_then_redirects_run hops req a "example.org" _ rc ha]
    simp only
    rw [probe_then_redirects_report hops req a _ _ rc ha]
    simp only [hhops]
    rfl
  · simp only [processor.run, processor.runDomains]
    rw [redirects_alone_run a "example.org" _ rc ha]
    simp only
    have h2 := redirects_alone_report a { Name := "example.org", Requirements := [] }
      { heap := heap, p := newProcessor opts } rc ha
    rcases hr : processor.reportChecks [checkAt a] { heap := heap, p := newProcessor opts }
      { Name := "example.org", Requirements := [] } with ⟨w2, domain⟩
    rw [hr] at h2
    simp only at h2 ⊢
    rw [h2]
    rfl

/-- Instance: the probing check of the scenario in front of the `redirectsCheck` at
address 1. -/
theorem end_to_end_with_probe_witness :
    exampleOrgHops "example.org"
      = [({ URL := "https://example.org/.well-known/csaf" },
          [{ URL := "http://example.org/.well-known/csaf" }])] ∧
    sampleHeap 1
      = .redirects { baseCheck := { num := 2, description := "Redirects", messages := [] } } ∧
    (processor.run
        [probeCheck exampleOrgHops { Num := 0, Description := "probe", Messages := [] },
         checkAt 1]
        ["example.org"] { heap := sampleHeap, p := newProcessor { Insecure := false } }).2
      = (some { Domains :=
          [{ Name := "example.org",
             Requirements :=
               [{ Num := 0, Description := "probe", Messages := [] },
                { Num := 2, Description := "Redirects",
                  Messages :=
                    ["Redirect https://example.org/.well-known/csaf: http://example.org/.well-known/csaf"] }] }] },
         none) ∧
    (processor.run [checkAt 1] ["example.org"]
        { heap := sampleHeap, p := newProcessor { Insecure := false } }).2
      = (some { Domains :=
          [{ Name := "example.org",
             Requirements :=
               [{ Num := 2, Description := "Redirects", Messages := [] }] }] },
         none) :=
  ⟨by decide, by decide,
    end_to_end_with_probe exampleOrgHops { Num := 0, Description := "probe", Messages := [] }
      1 { baseCheck := { num := 2, description := "Redirects", messages := [] } }
      sampleHeap { Insecure := false } (by decide) (by decide)⟩

/-! ## The redirect map after a run -/

theorem runDomains_ok_redirects {σ : Type} (checks : List (check σ)) (ds : List String) :
    ∀ (w : World σ) (report : Report),
      (processor.runDomains checks ds w report).2.2 = none →
      (ds ≠ [] ∨ w.p.redirects = GoMap.empty) →
        (processor.runDomains checks ds w report).1.p.redirects = GoMap.empty := by
  induction ds with
  | nil =>
    intro w report _ h
    rcases h with h | h
    · exact absurd rfl h
    · simpa [processor.runDomains] using h
  | cons d ds ih =>
    intro w report hok _
    simp only [processor.runDomains] at hok ⊢
    rcases h1 : processor.runChecks checks d w with ⟨w1, _ | err⟩
    · simp only [h1] at hok ⊢
      exact ih _ _ hok (Or.inr (processor.clean_redirects _))
    · simp [h1] at hok

theorem runDomains_fail_world {σ : Type} (checks : List (check σ)) (ds : List String) :
    ∀ (w : World σ) (report : Report) (e : String),
      (processor.runDomains checks ds w report).2.2 = some e →
        ∃ (ds1 : List String) (d : String) (ds2 : List String) (w1 : World σ)
          (rep1 : Report),
          ds = ds1 ++ d :: ds2 ∧
          processor.runDomains checks ds1 w report = (w1, some rep1, none) ∧
          (processor.runChecks checks d w1).2 = some e ∧
          (processor.runDomains checks ds w report).1 = (processor.runChecks checks d w1).1 ∧
          (ds1 ≠ [] → w1.p.redirects = GoMap.empty) := by
  induction ds with
  | nil => intro w report e h; simp [processor.runDomains] at h
  | cons d ds ih =>
    intro w report e h
    rcases h1 : processor.runChecks checks d w with ⟨w1, _ | err⟩
    · simp only [processor.runDomains, h1] at h
      obtain ⟨ds1, d1, ds2, w3, rep1, hds, hrun, herr, hworld, hclean⟩ := ih _ _ e h
      refine ⟨d :: ds1, d1, ds2, w3, rep1, by simp [hds], ?_, herr, ?_, fun _ => ?_⟩
      · simp only [processor.runDomains, h1]
        exact hrun
      · simp only [processor.runDomains, h1]
        exact hworld
      · cases ds1 with
        | nil =>
          simp only [processor.runDomains, Prod.mk.injEq] at hrun
          rw [← hrun.1]
          exact processor.clean_redirects _
        | cons d2 ds3 => exact hclean (List.cons_ne_nil _ _)
    · simp only [processor.runDomains, h1] at h
      injection h with h
      subst h
      refine ⟨[], d, ds, w, report, rfl, rfl, by rw [h1], ?_, fun hne => absurd rfl hne⟩
      simp only [processor.runDomains, h1]

/-- C14 (as amended): after `processor.run` has processed at least one domain and
returned a Report, the redirect map is empty, the map of a fresh processor, since
`clean` removes every key whatever the map held; for an empty domain list the run
leaves the processor as it was, so the map is empty afterwards if it was empty
before. -/
theorem run_leaves_redirects_empty {σ : Type} (checks : List (check σ))
    (domains : List String) (w : World σ)
    (hok : (processor.run checks domains w).2.2 = none)
    (h : domains ≠ [] ∨ w.p.redirects = GoMap.empty) :
    (processor.run checks domains w).1.p.redirects = GoMap.empty ∧
    (∀ opts : options,
      (processor.run checks domains w).1.p.redirects = (newProcessor opts).redirects) ∧
    (∀ p : processor, p.clean.redirects = GoMap.empty) ∧
    (processor.run checks [] w).1 = w := by
  have hmain := runDomains_ok_redirects checks domains w { Domains := [] } hok h
  exact ⟨hmain, fun _ => hmain, processor.clean_redirects, rfl⟩

/-- Instance: two concrete checks over two domains, starting from a map that holds
an entry. -/
theorem run_leaves_redirects_empty_witness :
    (processor.run [checkAt 0, checkAt 1] ["a.example", "b.example"]
        { heap := sampleHeap,
          p := { opts := { Insecure := false },
                 redirects := GoMap.empty.set "https://x/b" "https://x/a" } }).2.2 = none ∧
    (["a.example", "b.example"] ≠ [] ∨
      (GoMap.empty.set "https://x/b" "https://x/a") = GoMap.empty) ∧
    (processor.run [checkAt 0, checkAt 1] ["a.example", "b.example"]
        { heap := sampleHeap,
          p := { opts := { Insecure := false },
                 redirects := GoMap.empty.set "https://x/b" "https://x/a" } }).1.p.redirects
      = GoMap.empty :=
  ⟨by decide, Or.inl (by decide),
    (run_leaves_redirects_empty [checkAt 0, checkAt 1] ["a.example", "b.example"]
      { heap := sampleHeap,
        p := { opts := { Insecure := false },
               redirects := GoMap.empty.set "https://x/b" "https://x/a" } }
      (by decide) (Or.inl (by decide))).1⟩

/-- After a failed run has left an entry in the redirect map, a run over no domains
returns a Report and the map still holds the entry. -/
theorem run_over_no_domains_keeps_entries :
    (processor.run sampleDirtyChecks ["a.example"]
        { heap := (), p := newProcessor { Insecure := false } }).2 = (none, some "fatal") ∧
    (processor.run sampleDirtyChecks []
        (processor.run sampleDirtyChecks ["a.example"]
          { heap := (), p := newProcessor { Insecure := false } }).1).2
      = (some { Domains := [] }, none) ∧
    (processor.run sampleDirtyChecks []
        (processor.run sampleDirtyChecks ["a.example"]
          { heap := (), p := newProcessor { Insecure := false } }).1).1.p.redirects.entries
      = [("https://a.example/csaf", "http://a.example/csaf")] ∧
    (processor.run sampleDirtyChecks []
        (processor.run sampleDirtyChecks ["a.example"]
          { heap := (), p := newProcessor { Insecure := false } }).1).1.p.redirects.entries
      ≠ GoMap.empty.entries := by
  decide

/-- C17: when `processor.run` aborts because a `run` call fails, no cleanup
follows: the processor and the check objects are left exactly as the run phase of
the failing domain left them, every entry recorded in that phase included; only
the entries of the domains completed before have been cleared. In the sample, the
redirect recorded while probing "a.example" is still in the map after the failure. -/
theorem failed_run_skips_clean {σ : Type} (checks : List (check σ))
    (domains : List String) (w : World σ) (e : String)
    (h : (processor.run checks domains w).2.2 = some e) :
    (∃ (ds1 : List String) (d : String) (ds2 : List String) (w1 : World σ)
        (rep1 : Report),
        domains = ds1 ++ d :: ds2 ∧
        processor.run checks ds1 w = (w1, some rep1, none) ∧
        (processor.runChecks checks d w1).2 = some e ∧
        (processor.run checks domains w).1 = (processor.runChecks checks d w1).1 ∧
        (ds1 ≠ [] → w1.p.redirects = GoMap.empty)) ∧
    (processor.run sampleDirtyChecks ["a.example"]
        { heap := (), p := newProcessor { Insecure := false } }).1.p.redirects.entries
      = [("https://a.example/csaf", "http://a.example/csaf")] :=
  ⟨runDomains_fail_world checks domains w { Domains := [] } e h, by decide⟩

/-- Instance: the probing check records a redirect for "a.example", then the next
check fails. -/
theorem failed_run_skips_clean_witness :
    (processor.run sampleDirtyChecks ["a.example"]
        { heap := (), p := newProcessor { Insecure := false } }).2.2 = some "fatal" ∧
    (∃ (ds1 : List String) (d : String) (ds2 : List String) (w1 : World Unit)
        (rep1 : Report),
        ["a.example"] = ds1 ++ d :: ds2 ∧
        processor.run sampleDirtyChecks ds1
          { heap := (), p := newProcessor { Insecure := false } } = (w1, some rep1, none) ∧
        (processor.runChecks sampleDirtyChecks d w1).2 = some "fatal" ∧
        (processor.run sampleDirtyChecks ["a.example"]
            { heap := (), p := newProcessor { Insecure := false } }).1
          = (processor.runChecks sampleDirtyChecks d w1).1 ∧
        (ds1 ≠ [] → w1.p.redirects = GoMap.empty)) ∧
    (processor.run sampleDirtyChecks ["a.example"]
        { heap := (), p := newProcessor { Insecure := false } }).1.p.redirects.entries
      = [("https://a.example/csaf", "http://a.example/csaf")] :=
  ⟨by decide,
    failed_run_skips_clean sampleDirtyChecks ["a.example"]
      { heap := (), p := newProcessor { Insecure := false } } "fatal" (by decide)⟩

/-! ## The end-to-end scenario -/

/-- C11: end to end, with checks = [redirectsCheck] and domains = ["example.org"],
where probing "example.org" has triggered one redirect from
http://example.org/.well-known/csaf to https://example.org/.well-known/csaf (the
client called the hook `checkRedirect` once, with the https request and the http
request made before it, on a fresh processor), `processor.run` returns a Report and
no error; the Report has one Domain, named "example.org", holding one Requirement,
whose message list is
["Redirect https://example.org/.well-known/csaf: http://example.org/.well-known/csaf"]. -/
theorem end_to_end_redirects (a : Nat) (rc : redirectsCheck) (heap : Heap)
    (opts : options) (ha : heap a = .redirects rc) :
    followChain (newProcessor opts)
        ["http://example.org/.well-known/csaf", "https://example.org/.well-known/csaf"]
      = (newProcessor opts).checkRedirect
          { URL := "https://example.org/.well-known/csaf" }
          [{ URL := "http://example.org/.well-known/csaf" }] ∧
    (processor.run [checkAt a] ["example.org"]
        { heap := heap,
          p := (followChain (newProcessor opts)
                 ["http://example.org/.well-known/csaf",
                  "https://example.org/.well-known/csaf"]).1 }).2
      = (some { Domains :=
          [{ Name := "example.org",
             Requirements :=
               [{ Num := rc.baseCheck.num, Description := rc.baseCheck.description,
                  Messages :=
                    ["Redirect https://example.org/.well-known/csaf: http://example.org/.well-known/csaf"] }] }] },
         none) := by
  constructor
  · rfl
  · simp only [processor.run, processor.runDomains]
    rw [redirects_alone_run a "example.org" _ rc ha]
    simp only
    have h2 := redirects_alone_report a { Name := "example.org", Requirements := [] }
      { heap := heap,
        p := (followChain (newProcessor opts)
               ["http://example.org/.well-known/csaf",
                "https://example.org/.well-known/csaf"]).1 } rc ha
    rcases hr : processor.reportChecks [checkAt a]
      { heap := heap,
        p := (followChain (newProcessor opts)
               ["http://example.org/.well-known/csaf",
                "https://example.org/.well-known/csaf"]).1 }
      { Name := "example.org", Requirements := [] } with ⟨w2, domain⟩
    rw [hr] at h2
    simp only at h2 ⊢
    rw [h2]
    rfl

/-- Instance: the `redirectsCheck` at address 1 of the sample memory. -/
theorem end_to_end_redirects_witness :
    sampleHeap 1
      = .redirects { baseCheck := { num := 2, description := "Redirects", messages := [] } } ∧
    followChain (newProcessor { Insecure := false })
        ["http://example.org/.well-known/csaf", "https://example.org/.well-known/csaf"]
      = (newProcessor { Insecure := false }).checkRedirect
          { URL := "https://example.org/.well-known/csaf" }
          [{ URL := "http://example.org/.well-known/csaf" }] ∧
    (processor.run [checkAt 1] ["example.org"]
        { heap := sampleHeap,
          p := (followChain (newProcessor { Insecure := false })
                 ["http://example.org/.well-known/csaf",
                  "https://example.org/.well-known/csaf"]).1 }).2
      = (some { Domains :=
          [{ Name := "example.org",
             Requirements :=
               [{ Num := 2, Description := "Redirects",
                  Messages :=
                    ["Redirect https://example.org/.well-known/csaf: http://example.org/.well-known/csaf"] }] }] },
         none) :=
  ⟨by decide,
    end_to_end_redirects 1
      { baseCheck := { num := 2, description := "Redirects", messages := [] } }
      sampleHeap { Insecure := false } (by decide)⟩

end CsafChecker
